import Mathlib

/-!
Verification of the resilient upstream-resolution subsystem and thumbnail
rewriting layer of the echo-backend server (src/server.js).

JavaScript strings are modelled as `List Char` (sequences of Unicode scalar
values; every Lean `Char` is a valid scalar value, which matches well-formed
JS strings).  Dynamic JS values are modelled by the inductive type `JVal`;
`null` and `undefined` are separate constructors.  Functions that can raise a
JS `TypeError` return `Except JsError _`.  The JS builtins used by the source
(`encodeURIComponent`, `decodeURIComponent`, `Array.prototype.sort` with a
comparator — stable per ES2019 —, string search and regex replacement) are
modelled after their ECMA-262 semantics.
-/

/-- A JavaScript error value: a message plus the optional `statusCode`
property that the retry logic in `getYouTubeInfo` inspects. -/
structure JsError where
  message : List Char
  statusCode : Option Nat
deriving DecidableEq, Repr

/-- Dynamic JavaScript values (the shapes that flow through the thumbnail
rewriting layer): null, undefined, booleans, numbers (the server only ever
compares and prints integral values), strings, arrays and plain objects.
Objects are ordered association lists with unique keys (JS own-property
insertion order). -/
inductive JVal where
  | vnull
  | vundef
  | vbool (b : Bool)
  | vnum (n : Int)
  | vstr (s : List Char)
  | varr (xs : List JVal)
  | vobj (fs : List (List Char × JVal))

/-- JS falsiness for the values representable in `JVal` (`NaN` excluded:
no float arithmetic occurs in the modelled fragment). -/
def jsFalsy : JVal → Bool
  | .vnull => true
  | .vundef => true
  | .vbool b => !b
  | .vnum n => n = 0
  | .vstr s => s.isEmpty
  | .varr _ => false
  | .vobj _ => false

def jsTruthy (v : JVal) : Bool := !jsFalsy v

/-- First-match association lookup (JS own properties are unique, so first
match is the only match). -/
def fieldLookup : List (List Char × JVal) → List Char → Option JVal
  | [], _ => none
  | (k, v) :: fs, key => if k = key then some v else fieldLookup fs key

/-- `obj.key` on a plain object: `undefined` when the key is absent. -/
def jsGetField (fs : List (List Char × JVal)) (key : List Char) : JVal :=
  (fieldLookup fs key).getD (.vundef : JVal)

/-- Property assignment `obj[key] = v` on an object: replaces the value in
place when the key exists, otherwise appends the new own property (JS
insertion-order semantics). -/
def setField : List (List Char × JVal) → List Char → JVal → List (List Char × JVal)
  | [], key, v => [(key, v)]
  | (k, w) :: fs, key, v => if k = key then (key, v) :: fs else (k, w) :: setField fs key v

/-- Removal of an own property (used only to state the "differs only in
thumbnail URL values" invariant). -/
def removeField : List (List Char × JVal) → List Char → List (List Char × JVal)
  | [], _ => []
  | (k, v) :: fs, key => if k = key then removeField fs key else (k, v) :: removeField fs key

/-- Property read `t.url` as performed on thumbnail entries: objects use
their own properties, all other non-null values yield `undefined` (the code
only reads the non-index key `url`, which no array or string has). Reading
from `null`/`undefined` throws; the callers below throw before calling this. -/
def jsGetProp (t : JVal) (key : List Char) : JVal :=
  match t with
  | .vobj fs => jsGetField fs key
  | _ => (.vundef : JVal)

/-- Decimal rendering of a natural number, for array-index keys produced by
spreading arrays/strings into object literals. -/
def natStr (n : Nat) : List Char := (Nat.repr n).toList

def spreadIdx : Nat → List JVal → List (List Char × JVal)
  | _, [] => []
  | i, x :: xs => (natStr i, x) :: spreadIdx (i + 1) xs

def spreadChars : Nat → List Char → List (List Char × JVal)
  | _, [] => []
  | i, c :: cs => (natStr i, .vstr [c]) :: spreadChars (i + 1) cs

/-- `{...t}` object-spread semantics: objects copy their own properties,
arrays and strings contribute index-keyed properties, other primitives
contribute nothing (spreading `null`/`undefined` contributes nothing, but the
callers below have already thrown on those before spreading). -/
def jsSpread : JVal → List (List Char × JVal)
  | .vobj fs => fs
  | .varr xs => spreadIdx 0 xs
  | .vstr s => spreadChars 0 s
  | _ => []

def strNull : List Char := "null".toList
def strUndefined : List Char := "undefined".toList
def strTrue : List Char := "true".toList
def strFalse : List Char := "false".toList
def strObjObj : List Char := "[object Object]".toList

/-!
ECMA-262 `ToString` for the representable values (arrays join their
elements with commas, `null`/`undefined` elements rendering empty; plain
objects render as `[object Object]`).
-/
mutual
def jsToString : JVal → List Char
  | .vnull => strNull
  | .vundef => strUndefined
  | .vbool b => if b then strTrue else strFalse
  | .vnum n => (Int.repr n).toList
  | .vstr s => s
  | .varr xs => jsArrJoin xs
  | .vobj _ => strObjObj
def jsToStringElem : JVal → List Char
  | .vnull => []
  | .vundef => []
  | v => jsToString v
def jsArrJoin : List JVal → List Char
  | [] => []
  | [x] => jsToStringElem x
  | x :: y :: xs => jsToStringElem x ++ ',' :: jsArrJoin (y :: xs)
end

/-- Does `needle` occur as a leading block of `hay`? -/
def leadsWith : List Char → List Char → Bool
  | [], _ => true
  | _ :: _, [] => false
  | a :: ns, b :: hs => a = b && leadsWith ns hs

/-- `hay.includes(needle)` for strings (ECMA-262 `String.prototype.includes`). -/
def jsIncludes (needle : List Char) : List Char → Bool
  | [] => leadsWith needle []
  | c :: hs => leadsWith needle (c :: hs) || jsIncludes needle hs

/-- `Array.prototype.includes` restricted to searching for a string value:
SameValueZero equality means only string elements can match. -/
def listHasStr (s : List Char) (xs : List JVal) : Bool :=
  xs.any fun x => match x with
    | .vstr t => t = s
    | _ => false

/-! ## encodeURIComponent / decodeURIComponent (ECMA-262) -/

/-- Code points left unescaped by `encodeURIComponent`:
`A-Z a-z 0-9 - _ . ! ~ * ( )` and the apostrophe (code 39). -/
def isUnreservedCode (n : Nat) : Bool :=
  (65 ≤ n && n ≤ 90) || (97 ≤ n && n ≤ 122) || (48 ≤ n && n ≤ 57) ||
  n = 45 || n = 95 || n = 46 || n = 33 || n = 126 || n = 42 || n = 39 || n = 40 || n = 41

def isUriUnreserved (c : Char) : Bool := isUnreservedCode c.toNat

/-- UTF-8 encoding of one Unicode scalar value. -/
def utf8Bytes (n : Nat) : List Nat :=
  if n < 0x80 then [n]
  else if n < 0x800 then [0xC0 + n / 64, 0x80 + n % 64]
  else if n < 0x10000 then [0xE0 + n / 4096, 0x80 + n / 64 % 64, 0x80 + n % 64]
  else [0xF0 + n / 262144, 0x80 + n / 4096 % 64, 0x80 + n / 64 % 64, 0x80 + n % 64]

def percentChar : Char := Char.ofNat 37

/-- Uppercase hex digit (as emitted by `encodeURIComponent`). -/
def hexDigitChar (d : Nat) : Char :=
  if d < 10 then Char.ofNat (48 + d) else Char.ofNat (55 + d)

/-- Percent escape of one byte. -/
def pctByte (b : Nat) : List Char := [percentChar, hexDigitChar (b / 16), hexDigitChar (b % 16)]

/-- `encodeURIComponent`: unreserved code points pass through, every other
code point is percent-escaped byte-by-byte in UTF-8. -/
def encodeURIComponent : List Char → List Char
  | [] => []
  | c :: cs =>
      (if isUriUnreserved c then [c] else ((utf8Bytes c.toNat).map pctByte).flatten) ++
        encodeURIComponent cs

/-- Value of a hex digit character (both cases, as accepted by
`decodeURIComponent`). -/
def hexVal (c : Char) : Option Nat :=
  if 48 ≤ c.toNat && c.toNat ≤ 57 then some (c.toNat - 48)
  else if 65 ≤ c.toNat && c.toNat ≤ 70 then some (c.toNat - 55)
  else if 97 ≤ c.toNat && c.toNat ≤ 102 then some (c.toNat - 87)
  else none

/-- Intermediate token stream of `decodeURIComponent`: characters kept as-is
and bytes recovered from percent escapes. -/
inductive UriTok where
  | raw (c : Char)
  | byte (b : Nat)

/-- First pass of `decodeURIComponent`: parse percent escapes into bytes
(`none` models the `URIError` on a malformed escape). -/
def pctDecode : List Char → Option (List UriTok)
  | [] => some []
  | c :: rest =>
      if c = percentChar then
        match rest with
        | a :: b :: rest' =>
            match hexVal a, hexVal b with
            | some ha, some hb => (pctDecode rest').map (fun ts => UriTok.byte (16 * ha + hb) :: ts)
            | _, _ => none
        | _ => none
      else (pctDecode rest).map (fun ts => UriTok.raw c :: ts)

/-!
Second pass of `decodeURIComponent`: UTF-8 decoding of maximal byte runs,
rejecting truncated, overlong, surrogate and out-of-range sequences
(`URIError` modelled as `none`).  `decTail2/3/4` consume the continuation
bytes of a 2/3/4-byte sequence whose lead byte is `b`.
-/
mutual
def decodeToks : List UriTok → Option (List Char)
  | [] => some []
  | .raw c :: ts => (decodeToks ts).map (fun s => c :: s)
  | .byte b :: ts =>
      if b < 0x80 then (decodeToks ts).map (fun s => Char.ofNat b :: s)
      else if 0xC2 ≤ b && b < 0xE0 then decTail2 b ts
      else if 0xE0 ≤ b && b < 0xF0 then decTail3 b ts
      else if 0xF0 ≤ b && b < 0xF5 then decTail4 b ts
      else none
def decTail2 (b : Nat) : List UriTok → Option (List Char)
  | .byte b1 :: ts =>
      if 0x80 ≤ b1 && b1 < 0xC0 then
        (decodeToks ts).map (fun s => Char.ofNat ((b - 0xC0) * 64 + (b1 - 0x80)) :: s)
      else none
  | _ => none
def decTail3 (b : Nat) : List UriTok → Option (List Char)
  | .byte b1 :: .byte b2 :: ts =>
      if (0x80 ≤ b1 && b1 < 0xC0) && (0x80 ≤ b2 && b2 < 0xC0) then
        let n := (b - 0xE0) * 4096 + (b1 - 0x80) * 64 + (b2 - 0x80)
        if 0x800 ≤ n && (n < 0xD800 || 0xDFFF < n) then
          (decodeToks ts).map (fun s => Char.ofNat n :: s)
        else none
      else none
  | _ => none
def decTail4 (b : Nat) : List UriTok → Option (List Char)
  | .byte b1 :: .byte b2 :: .byte b3 :: ts =>
      if ((0x80 ≤ b1 && b1 < 0xC0) && (0x80 ≤ b2 && b2 < 0xC0)) && (0x80 ≤ b3 && b3 < 0xC0) then
        let n := (b - 0xF0) * 262144 + (b1 - 0x80) * 4096 + (b2 - 0x80) * 64 + (b3 - 0x80)
        if 0x10000 ≤ n && n < 0x110000 then
          (decodeToks ts).map (fun s => Char.ofNat n :: s)
        else none
      else none
  | _ => none
end

def decodeURIComponent (s : List Char) : Option (List Char) :=
  (pctDecode s).bind decodeToks

/-! ## The thumbnail upscale regexes of proxyThumbnailUrl (src/server.js 222-232) -/

def isDigitCh (c : Char) : Bool := 48 ≤ c.toNat && c.toNat ≤ 57

/-- Maximal leading digit run (`\d+` is effectively maximal here because in
both regexes the character after the digits cannot be a digit). -/
def splitDigits : List Char → List Char × List Char
  | [] => ([], [])
  | c :: cs =>
      if isDigitCh c then
        let p := splitDigits cs
        (c :: p.1, p.2)
      else ([], c :: cs)

/-- Match `-l\d+-rj` at the head, returning the remainder. -/
def matchLRJ : List Char → Option (List Char)
  | '-' :: 'l' :: rest =>
      match splitDigits rest with
      | ([], _) => none
      | (_ :: _, r) =>
          match r with
          | '-' :: 'r' :: 'j' :: r' => some r'
          | _ => none
  | _ => none

/-- Match the profile-photo size token `=w\d+-h\d+(-p)?-l\d+-rj` at the head;
returns whether the optional `-p` group participated and the remainder. -/
def matchWHTok : List Char → Option (Bool × List Char)
  | '=' :: 'w' :: rest =>
      match splitDigits rest with
      | ([], _) => none
      | (_ :: _, r1) =>
          match r1 with
          | '-' :: 'h' :: r2 =>
              match splitDigits r2 with
              | ([], _) => none
              | (_ :: _, r3) =>
                  match r3 with
                  | '-' :: 'p' :: r4 =>
                      match matchLRJ r4 with
                      | some r5 => some (true, r5)
                      | none => (matchLRJ r3).map (fun r5 => (false, r5))
                  | _ => (matchLRJ r3).map (fun r5 => (false, r5))
          | _ => none
  | _ => none

def strW500 : List Char := "=w500-h500".toList
def strDashP : List Char := ['-', 'p']
def strL90RJ : List Char := "-l90-rj".toList
def strS500 : List Char := "=s500".toList

/-- `url.replace(/=w\d+-h\d+(-p)?-l\d+-rj/, '=w500-h500$1-l90-rj')`: replace
the leftmost match only ($1 is the optional `-p` group, empty when it did not
participate). -/
def replaceWH : List Char → List Char
  | [] => []
  | c :: cs =>
      match matchWHTok (c :: cs) with
      | some (hadP, rest) => strW500 ++ (if hadP then strDashP else []) ++ strL90RJ ++ rest
      | none => c :: replaceWH cs

/-- Match the channel-art size token `=s\d+` at the head. -/
def matchSTok : List Char → Option (List Char)
  | '=' :: 's' :: rest =>
      match splitDigits rest with
      | ([], _) => none
      | (_ :: _, r) => some r
  | _ => none

/-- `url.replace(/=s\d+/, '=s500')`: leftmost match only. -/
def replaceS : List Char → List Char
  | [] => []
  | c :: cs =>
      match matchSTok (c :: cs) with
      | some rest => strS500 ++ rest
      | none => c :: replaceS cs

def lh3CDN : List Char := "lh3.googleusercontent.com".toList
def yt3CDN : List Char := "yt3.googleusercontent.com".toList
def proxyPre : List Char := "/api/proxy/image?url=".toList

/-- The upscale step of `proxyThumbnailUrl` exactly as written in the source:
both `if` bodies compute from the original `url`, so a URL containing the
`yt3` host string has its `lh3` rewrite (if any) discarded. -/
def upscaleStr (s : List Char) : List Char :=
  let up1 := if jsIncludes lh3CDN s then replaceWH s else s
  if jsIncludes yt3CDN s then replaceS s else up1

def errNullEntry : JsError := ⟨"Cannot read properties of null".toList, none⟩
def errNoIncludes : JsError := ⟨"url.includes is not a function".toList, none⟩
def errNoReplace : JsError := ⟨"url.replace is not a function".toList, none⟩
def errNoMap : JsError := ⟨"map is not a function".toList, none⟩
def errAssignPrim : JsError := ⟨"Cannot create property on primitive".toList, none⟩

/-- `proxyThumbnailUrl(url, baseUrl)` (src/server.js 222-232).  Falsy URLs are
returned as-is; string URLs are upscaled and wrapped into the image-proxy URL;
a truthy non-string URL throws a `TypeError` when `.includes`/`.replace` is
called on it, except that an array URL not containing one of the host strings
as an element is coerced by `encodeURIComponent` via `ToString`. -/
def proxyThumbnailUrl (base : List Char) (url : JVal) : Except JsError JVal :=
  if jsFalsy url then .ok url
  else match url with
    | .vstr s => .ok (.vstr (base ++ proxyPre ++ encodeURIComponent (upscaleStr s)))
    | .varr xs =>
        if listHasStr lh3CDN xs || listHasStr yt3CDN xs then .error errNoReplace
        else .ok (.vstr (base ++ proxyPre ++ encodeURIComponent (jsToString (.varr xs))))
    | _ => .error errNoIncludes

/-- `x.length === 0` as used in the guards of `processThumbnails` and
`processResults` (strict equality against the `length` property; `undefined`
is not `0`). -/
def jsLengthIsZero : JVal → Bool
  | .varr xs => xs.isEmpty
  | .vstr s => s.isEmpty
  | .vobj fs =>
      match fieldLookup fs ("length".toList) with
      | some (.vnum n) => n = 0
      | _ => false
  | _ => false

/-- `!thumbnails || thumbnails.length === 0`. -/
def thumbsEmptyish (v : JVal) : Bool := jsFalsy v || jsLengthIsZero v

def urlKey : List Char := "url".toList
def thumbKey : List Char := "thumbnails".toList
def vidKey : List Char := "videoId".toList
def widthKey : List Char := "width".toList
def heightKey : List Char := "height".toList

/-- One entry of the `thumbnails.map(t => ({ ...t, url: proxyThumbnailUrl(t.url, baseUrl) }))`
callback: reading `t.url` (and spreading `t`) throws on a `null`/`undefined`
entry; otherwise the entry is rebuilt with its `url` own property replaced. -/
def procThumbEntry (base : List Char) (t : JVal) : Except JsError JVal :=
  match t with
  | .vnull => .error errNullEntry
  | .vundef => .error errNullEntry
  | _ => (proxyThumbnailUrl base (jsGetProp t urlKey)).map
      (fun u => .vobj (setField (jsSpread t) urlKey u))

def procThumbList (base : List Char) : List JVal → Except JsError (List JVal)
  | [] => .ok []
  | t :: ts => do
      let t' ← procThumbEntry base t
      let ts' ← procThumbList base ts
      .ok (t' :: ts')

/-- `processThumbnails(thumbnails, baseUrl)` (src/server.js 234-240): falsy or
zero-length input is returned untouched; a truthy non-array with nonzero
length has no `.map` and throws. -/
def processThumbnails (base : List Char) (th : JVal) : Except JsError JVal :=
  if thumbsEmptyish th then .ok th
  else match th with
    | .varr ts => (procThumbList base ts).map .varr
    | _ => .error errNoMap

def mqUrlPre : List Char := "https://i.ytimg.com/vi/".toList
def mqUrlSuf : List Char := "/mqdefault.jpg".toList
def hqUrlSuf : List Char := "/hqdefault.jpg".toList

/-- The first synthesized default-art descriptor (320x180). -/
def mqThumb (vid : List Char) : JVal :=
  .vobj [(urlKey, .vstr (mqUrlPre ++ vid ++ mqUrlSuf)), (widthKey, .vnum 320), (heightKey, .vnum 180)]

/-- The second synthesized default-art descriptor (480x360). -/
def hqThumb (vid : List Char) : JVal :=
  .vobj [(urlKey, .vstr (mqUrlPre ++ vid ++ hqUrlSuf)), (widthKey, .vnum 480), (heightKey, .vnum 360)]

/-- The per-item body of `processResults` (src/server.js 243-252).  The JS
callback mutates `item` in place (`item.thumbnails = ...`) and returns the
very same object, so the value returned here is simultaneously the post-call
state of the caller's item.  Reading `.thumbnails` of `null`/`undefined`
throws; assigning `.thumbnails` on a non-object primitive throws in strict
mode (ES modules); assigning a property on an array is allowed but invisible
to serialization, so an array item passes through unchanged. -/
def procResultsItem (base : List Char) (item : JVal) : Except JsError JVal :=
  match item with
  | .vnull => .error errNullEntry
  | .vundef => .error errNullEntry
  | .vobj fs =>
      let th0 := jsGetField fs thumbKey
      let fs1 :=
        if thumbsEmptyish th0 && jsTruthy (jsGetField fs vidKey) then
          let vid := jsToString (jsGetField fs vidKey)
          setField fs thumbKey (.varr [mqThumb vid, hqThumb vid])
        else fs
      (processThumbnails base (jsGetField fs1 thumbKey)).map
        (fun tv => .vobj (setField fs1 thumbKey tv))
  | .varr xs =>
      (processThumbnails base .vundef).map (fun _ => .varr xs)
  | _ => .error errAssignPrim

def procItemList (base : List Char) : List JVal → Except JsError (List JVal)
  | [] => .ok []
  | x :: xs => do
      let x' ← procResultsItem base x
      let xs' ← procItemList base xs
      .ok (x' :: xs')

/-- `processResults(items, baseUrl)` (src/server.js 242-253): `items.map` over
the mutating callback.  The returned array holds the same (now mutated) item
objects the caller passed in. -/
def processResults (base : List Char) (items : JVal) : Except JsError JVal :=
  match items with
  | .varr xs => (procItemList base xs).map .varr
  | .vnull => .error errNullEntry
  | .vundef => .error errNullEntry
  | _ => .error errNoMap

def isObjOrArr : JVal → Bool
  | .vobj _ => true
  | .varr _ => true
  | _ => false

def isArrB : JVal → Bool
  | .varr _ => true
  | _ => false

/-!
`proxyAllThumbnails(obj, baseUrl)` (src/server.js 255-269): a recursive
copy-on-write walk.  Non-objects (and `null`) are returned as-is; arrays map
the walk over their elements (a fresh array); objects are shallow-copied and
then each own property is replaced: a `thumbnails` property holding an array
goes through `processThumbnails`, any other object/array-valued property is
walked recursively, scalars are kept.  The input graph is never mutated.
-/
mutual
def proxyAllThumbnails (base : List Char) : JVal → Except JsError JVal
  | .vobj fs => (patFields base fs).map .vobj
  | .varr xs => (patArr base xs).map .varr
  | v => .ok v
def patArr (base : List Char) : List JVal → Except JsError (List JVal)
  | [] => .ok []
  | x :: xs => do
      let x' ← proxyAllThumbnails base x
      let xs' ← patArr base xs
      .ok (x' :: xs')
def patFields (base : List Char) : List (List Char × JVal) →
    Except JsError (List (List Char × JVal))
  | [] => .ok []
  | (k, v) :: fs => do
      let v' ←
        if k = thumbKey && isArrB v then processThumbnails base v
        else if isObjOrArr v then proxyAllThumbnails base v
        else .ok v
      let fs' ← patFields base fs
      .ok ((k, v') :: fs')
end

/-! ## Structural-isomorphism apparatus for the rewriter (claim C5) -/

/-- Erase the `url` own property of a thumbnail entry (the only place where
the rewriter changes or adds a value). -/
def eraseEntry : JVal → JVal
  | .vobj fs => .vobj (removeField fs urlKey)
  | v => v

def eraseEntries : JVal → JVal
  | .varr ts => .varr (ts.map eraseEntry)
  | v => v

/-!
`eraseThumbUrls` deletes exactly the data `proxyAllThumbnails` may change —
the `url` properties of entries of array-valued `thumbnails` properties —
mirroring the walk of `proxyAllThumbnails`.  Input and output of the rewriter
agree after this erasure, which is the "structurally isomorphic, differing
only in thumbnail URL values" invariant.
-/
mutual
def eraseThumbUrls : JVal → JVal
  | .vobj fs => .vobj (eraseFields fs)
  | .varr xs => .varr (eraseArr xs)
  | v => v
def eraseArr : List JVal → List JVal
  | [] => []
  | x :: xs => eraseThumbUrls x :: eraseArr xs
def eraseFields : List (List Char × JVal) → List (List Char × JVal)
  | [] => []
  | (k, v) :: fs =>
      (k, if k = thumbKey && isArrB v then eraseEntries v
          else if isObjOrArr v then eraseThumbUrls v
          else v) :: eraseFields fs
end

/-- A thumbnail entry the rewriter can process without throwing: an object
whose `url` property is absent, a string, `null` or `undefined`. -/
def wfEntry : JVal → Bool
  | .vobj fs =>
      match fieldLookup fs urlKey with
      | none => true
      | some .vundef => true
      | some .vnull => true
      | some (.vstr _) => true
      | some _ => false
  | _ => false

def wfEntries : JVal → Bool
  | .varr ts => ts.all wfEntry
  | _ => false

/-!
Well-formedness of a value graph for `proxyAllThumbnails`: every array-valued
`thumbnails` property (anywhere the walk reaches) has well-formed entries.
-/
mutual
def wfThumbs : JVal → Bool
  | .vobj fs => wfFields fs
  | .varr xs => wfArr xs
  | _ => true
def wfArr : List JVal → Bool
  | [] => true
  | x :: xs => wfThumbs x && wfArr xs
def wfFields : List (List Char × JVal) → Bool
  | [] => true
  | (k, v) :: fs =>
      (if k = thumbKey && isArrB v then wfEntries v
       else if isObjOrArr v then wfThumbs v
       else true) && wfFields fs
end

/-! ## Client rotation and the retrying resolver getYouTubeInfo (src/server.js 32-115) -/

def YOUTUBE_CLIENTS : List (List Char) :=
  ["ANDROID".toList, "ANDROID_MUSIC".toList, "WEB".toList,
   "WEB_CREATOR".toList, "TV".toList, "DESKTOP".toList]

/-- The identity handed out by `getNextClient` when the global `clientIndex`
cursor stands at `k` (the source keeps the cursor reduced modulo the list
length; modelling the cursor as an unbounded counter read modulo 6 is
equivalent). -/
def clientAt (k : Nat) : List Char :=
  YOUTUBE_CLIENTS.getD (k % YOUTUBE_CLIENTS.length) []

/-- Raw upstream info returned by `ytdl.getInfo`: the format list and the
video title (the only parts the routes consume). -/
structure YtFormat where
  hasAudio : Bool
  hasVideo : Bool
  bitrate : Nat
deriving DecidableEq, Repr

structure YtInfo where
  formats : List YtFormat
  title : List Char
deriving DecidableEq, Repr

/-- Everything observable about one call of `getYouTubeInfo`: the returned or
thrown value, the `setTimeout` backoff pauses in chronological order, the
client identities consumed from the rotation selector (one per attempt), and
the final cursor position. -/
structure GytOut where
  result : Except JsError (YtInfo × List Char)
  waits : List Nat
  clients : List (List Char)
  cursor : Nat

/-- `lastError` is still `undefined` when the loop body never ran
(`retryCount = 0`); JS then throws `undefined`. -/
def thrownOf : Option JsError → JsError
  | some e => e
  | none => ⟨"undefined".toList, none⟩

/-- The retry loop of `getYouTubeInfo` (src/server.js 83-112).  `remaining`
counts the iterations left (`retryCount - i`), `i` is the zero-based attempt
index of the source loop, `cursor` the rotation-selector position and `last`
the last observed error.  The outcome of the `ytdl.getInfo` call on attempt
`i` is supplied by the oracle `f i` (each upstream call is independent).
On a failure the backoff is: statusCode 429 → `2^i * 2000` ms with no
`i < retryCount - 1` guard (the source waits even after the final attempt);
statusCode 403 and attempts remain → `2^i * 1000` ms; any other error and
attempts remain → `2^i * 1000` ms; otherwise no wait. -/
def gytGo (f : Nat → Except JsError YtInfo) (n : Nat) :
    Nat → Nat → Nat → Option JsError → GytOut
  | 0, _, cursor, last => ⟨.error (thrownOf last), [], [], cursor⟩
  | r + 1, i, cursor, _last =>
      let c := clientAt cursor
      match f i with
      | .ok info => ⟨.ok (info, c), [], [c], cursor + 1⟩
      | .error e =>
          let w : List Nat :=
            if e.statusCode = some 429 then [2 ^ i * 2000]
            else if e.statusCode = some 403 && i + 1 < n then [2 ^ i * 1000]
            else if i + 1 < n then [2 ^ i * 1000]
            else []
          let rest := gytGo f n r (i + 1) (cursor + 1) (some e)
          ⟨rest.result, w ++ rest.waits, c :: rest.clients, rest.cursor⟩

/-- `getYouTubeInfo(videoId, retryCount)` with the rotation cursor at
`cursor`; the string returned alongside the info is the successful attempt's
client name (the source also tags `method: 'ytdl'`, not modelled as no route
reads it). -/
def getYouTubeInfo (f : Nat → Except JsError YtInfo) (n : Nat) (cursor : Nat) : GytOut :=
  gytGo f n n 0 cursor none

/-- The per-failure backoff rule as the amended specification states it:
429 → `2000·2^i` always (even after the final attempt); any other failure →
`1000·2^i` only when another attempt follows. -/
def backoffRule (f : Nat → Except JsError YtInfo) (n : Nat) (i : Nat) : Option Nat :=
  match f i with
  | .ok _ => none
  | .error e =>
      if e.statusCode = some 429 then some (2 ^ i * 2000)
      else if i + 1 < n then some (2 ^ i * 1000)
      else none

def exFailed : Except JsError YtInfo → Bool
  | .error _ => true
  | .ok _ => false

/-! ## Mirror fallback resolver getStreamFromInvidious (src/server.js 36-56, 118-199) -/

def PIPED_INSTANCES : List (List Char) :=
  ["https://pipedapi.kavin.rocks".toList, "https://pipedapi.adminforge.de".toList,
   "https://watchapi.whatever.social".toList, "https://api.piped.yt".toList,
   "https://pipedapi.lunar.icu".toList]

def INVIDIOUS_INSTANCES : List (List Char) :=
  ["https://invidious.kavin.rocks".toList, "https://invidious.snopyta.org".toList,
   "https://yewtu.be".toList, "https://invidious.projectsegfau.lt".toList,
   "https://iv.datura.network".toList, "https://invidious.tube".toList,
   "https://invidious.namazso.eu".toList]

def pipedCount : Nat := PIPED_INSTANCES.length
def invCount : Nat := INVIDIOUS_INSTANCES.length

def pipedInstanceUrl (k : Nat) : List Char := PIPED_INSTANCES.getD k []
def invInstanceUrl (k : Nat) : List Char := INVIDIOUS_INSTANCES.getD k []

/-- One audio stream descriptor of a Piped `/streams/:id` response (only the
fields the source reads). -/
structure PipedAudio where
  url : List Char
  bitrate : Option Int
deriving DecidableEq, Repr

structure PipedData where
  audioStreams : Option (List PipedAudio)
  title : Option (List Char)
deriving DecidableEq, Repr

/-- Outcome of `axios.get` against one Piped instance: a thrown
transport/timeout/HTTP error, or a response whose `data` may be missing. -/
inductive PipedResp where
  | fail
  | resp (data : Option PipedData)
deriving DecidableEq, Repr

/-- One entry of an Invidious `adaptiveFormats` list. -/
structure InvFormat where
  ftype : Option (List Char)
  bitrate : Option Int
  url : List Char
deriving DecidableEq, Repr

structure InvData where
  adaptiveFormats : Option (List InvFormat)
  title : Option (List Char)
deriving DecidableEq, Repr

inductive InvResp where
  | fail
  | resp (data : Option InvData)
deriving DecidableEq, Repr

/-- The normalized mirror result `{ success, url, method, instance, title }`
(`instance` is a Lean keyword, hence `instanceUrl`). `title` is `none` when
the upstream had no title and the source stored `undefined`. -/
structure StreamData where
  success : Bool
  url : List Char
  method : List Char
  instanceUrl : List Char
  title : Option (List Char)
deriving DecidableEq, Repr

/-- `arr.sort((a, b) => (b.bitrate || 0) - (a.bitrate || 0))`: a stable
descending sort (ES2019 requires sort stability), modelled as stable
insertion sort — an element moves ahead only of strictly smaller keys. -/
def sortInsDesc (key : α → Int) (a : α) : List α → List α
  | [] => [a]
  | b :: bs => if key b ≤ key a then a :: b :: bs else b :: sortInsDesc key a bs

def jsSortDesc (key : α → Int) : List α → List α
  | [] => []
  | a :: as => sortInsDesc key a (jsSortDesc key as)

/-- Specification-side description of `sort-descending-then-take-first`: the
maximum-`key` element, ties broken by first occurrence in list order. -/
def firstMaxBy (key : α → Int) (a : α) : List α → α
  | [] => a
  | b :: bs =>
      let m := firstMaxBy key b bs
      if key a < key m then m else a

def pipedKey (a : PipedAudio) : Int := a.bitrate.getD 0
def invKey (f : InvFormat) : Int := f.bitrate.getD 0

/-- `t || d` for an optional string (JS `||` also rejects the empty string). -/
def jsOrElse (t : Option (List Char)) (d : List Char) : List Char :=
  match t with
  | some s => if s.isEmpty then d else s
  | none => d

def strPiped : List Char := "piped".toList
def strInvidious : List Char := "invidious".toList
def strAudio : List Char := "audio".toList

/-- The body of one Piped-instance attempt (src/server.js 125-156): a thrown
request is caught (`none` = try the next instance); a usable response needs a
truthy `data`, a truthy `data.audioStreams` and a nonempty list, and then the
best-by-bitrate entry (stable sort, first element) is returned. -/
def tryPiped (r : PipedResp) (instUrl vid : List Char) : Option StreamData :=
  match r with
  | .fail => none
  | .resp none => none
  | .resp (some d) =>
      match d.audioStreams with
      | none => none
      | some l =>
          if 0 < l.length then
            match jsSortDesc pipedKey l with
            | best :: _ =>
                some ⟨true, best.url, strPiped, instUrl, some (jsOrElse d.title vid)⟩
            | [] => none
          else none

/-- `f.type && f.type.startsWith('audio')`. -/
def isAudioFmt (f : InvFormat) : Bool :=
  match f.ftype with
  | some s => !s.isEmpty && leadsWith strAudio s
  | none => false

/-- The body of one Invidious-instance attempt (src/server.js 163-195):
filter `adaptiveFormats` to audio-typed entries, then the same best-by-bitrate
selection.  `title` has no `|| videoId` fallback on this path. -/
def tryInv (r : InvResp) (instUrl : List Char) : Option StreamData :=
  match r with
  | .fail => none
  | .resp none => none
  | .resp (some d) =>
      match d.adaptiveFormats with
      | none => none
      | some fs =>
          let audioFormats := fs.filter isAudioFmt
          if 0 < audioFormats.length then
            match jsSortDesc invKey audioFormats with
            | best :: _ => some ⟨true, best.url, strInvidious, instUrl, d.title⟩
            | [] => none
          else none

/-- The Piped loop: `k` is the number of instances already consumed in this
call, `r` the iterations left; each iteration consumes the next instance from
the global round-robin cursor (start position `p`).  Returns the first usable
result and the list of instance indices queried, in order. -/
def pipedLoop (f : Nat → PipedResp) (vid : List Char) (p : Nat) :
    Nat → Nat → Option StreamData × List Nat
  | 0, _ => (none, [])
  | r + 1, k =>
      let idx := (p + k) % pipedCount
      match tryPiped (f idx) (pipedInstanceUrl idx) vid with
      | some sd => (some sd, [idx])
      | none =>
          let rest := pipedLoop f vid p r (k + 1)
          (rest.1, idx :: rest.2)

def invLoop (g : Nat → InvResp) (i : Nat) :
    Nat → Nat → Option StreamData × List Nat
  | 0, _ => (none, [])
  | r + 1, k =>
      let idx := (i + k) % invCount
      match tryInv (g idx) (invInstanceUrl idx) with
      | some sd => (some sd, [idx])
      | none =>
          let rest := invLoop g i r (k + 1)
          (rest.1, idx :: rest.2)

/-- Observable behaviour of one `getStreamFromInvidious` call. -/
structure MirrorOut where
  result : Option StreamData
  pipedTried : List Nat
  invTried : List Nat

/-- `getStreamFromInvidious(videoId)` (src/server.js 118-199): one round over
the Piped instances, then — only when no usable result was found — one round
over the Invidious instances; `null` when both ecosystems are exhausted.  The
oracles `f`/`g` give each instance's response; `p`/`i` are the global
round-robin cursor positions at entry. -/
def getStreamFromInvidious (f : Nat → PipedResp) (g : Nat → InvResp)
    (vid : List Char) (p i : Nat) : MirrorOut :=
  let piped := pipedLoop f vid p pipedCount 0
  match piped.1 with
  | some sd => ⟨some sd, piped.2, []⟩
  | none =>
      let inv := invLoop g i invCount 0
      ⟨inv.1, piped.2, inv.2⟩

/-! ## The GET /api/stream/:videoId handler (src/server.js 365-442) -/

/-- `ytdl.filterFormats(formats, 'audioonly')` (library semantics): formats
with audio and no video, order preserved. -/
def filterAudioOnly (fs : List YtFormat) : List YtFormat :=
  fs.filter fun f => f.hasAudio && !f.hasVideo

/-- `Math.round(bitrate / 1000)` for a natural bitrate. -/
def roundKbps (b : Nat) : Nat := (2 * b + 1000) / 2000

def strKbps : List Char := "kbps".toList
def str128kbps : List Char := "128kbps".toList
def strYtSource : List Char := "YouTube (ytdl-core)".toList
def strInvSrcL : List Char := "Invidious (".toList
def strInvSrcR : List Char := ")".toList
def proxyPathPre : List Char := "/api/proxy/".toList
def strStreamFail : List Char := "Failed to get stream URL".toList

def natKbpsLabel (b : Nat) : List Char := (Nat.repr (roundKbps b)).toList ++ strKbps

/-- The terminal JSON response of `GET /api/stream/:videoId`: the success
body `{ success: true, url, quality, source, title }` or the error body
`{ error, message }` with its HTTP status. -/
inductive StreamResponse where
  | ok (url quality source : List Char) (title : Option (List Char))
  | err (status : Nat) (error message : List Char)
deriving DecidableEq, Repr

/-- The part of the `GET /api/stream/:videoId` handler that decides the
response (src/server.js 391-441).  The preceding metadata lookup only builds
a local `query` string that the rest of the handler never reads, so it does
not influence the response.  `ytRes` is the outcome of
`getYouTubeInfo(videoId, 5)`; `mirror` the outcome of
`getStreamFromInvidious(videoId)` (only consulted when `ytRes` failed).  When
both fail the handler re-throws the YouTube error and the outer catch answers
500 with that error's message. -/
def streamHandler (base vid : List Char) (ytRes : Except JsError (YtInfo × List Char))
    (mirror : Option StreamData) : StreamResponse :=
  match ytRes with
  | .ok (info, _) =>
      let audioFormats := filterAudioOnly info.formats
      .ok (base ++ proxyPathPre ++ vid)
        (match audioFormats.head? with
         | some f => natKbpsLabel f.bitrate
         | none => str128kbps)
        strYtSource (some info.title)
  | .error e =>
      match mirror with
      | some sd =>
          .ok sd.url str128kbps (strInvSrcL ++ sd.instanceUrl ++ strInvSrcR) sd.title
      | none => .err 500 strStreamFail e.message

/-! ## Concrete inputs used by the witness and counterexample theorems -/

def wBase : List Char := "https://proxy.example".toList
def wVid : List Char := "dQw4w9WgXcQ".toList

def wErrAt (i : Nat) : JsError := ⟨"upstream failure".toList, some (500 + i)⟩

/-- An upstream that always fails with a distinct generic error per attempt. -/
def wFailF (i : Nat) : Except JsError YtInfo := .error (wErrAt i)

def err429 : JsError := ⟨"Status code 429".toList, some 429⟩

/-- An upstream that always fails with an explicit rate-limit signal. -/
def w429F (_ : Nat) : Except JsError YtInfo := .error err429

/-- Mirror oracles with every instance unreachable. -/
def wPipedFail (_ : Nat) : PipedResp := .fail
def wInvFail (_ : Nat) : InvResp := .fail

def wAudioLo : PipedAudio := ⟨"https://cdn.example/lo.m4a".toList, some 128000⟩
def wAudioHi : PipedAudio := ⟨"https://cdn.example/hi.m4a".toList, some 320000⟩
def wTitle : List Char := "Some Song".toList

/-- A Piped oracle whose instance 1 answers with two audio streams (the
second has the strictly larger bitrate); all other instances are down. -/
def wPipedOk (k : Nat) : PipedResp :=
  if k = 1 then .resp (some ⟨some [wAudioLo, wAudioHi], some wTitle⟩) else .fail

def wInvAudio : InvFormat := ⟨some ("audio/mp4".toList), some 160000, "https://iv.example/a.m4a".toList⟩
def wInvVideo : InvFormat := ⟨some ("video/mp4".toList), some 900000, "https://iv.example/v.mp4".toList⟩

/-- An Invidious oracle whose instance 2 answers with one video-typed and one
audio-typed format; all other instances are down. -/
def wInvOk (k : Nat) : InvResp :=
  if k = 2 then .resp (some ⟨some [wInvVideo, wInvAudio], some wTitle⟩) else .fail

/-- The C7 counterexample URL: its host is the profile-photo CDN and it
carries a `=w64-h64-l90-rj` size token, but its query string happens to
contain the channel-art CDN host as a substring (and no `=s` token). -/
def cx7Url : List Char :=
  "https://lh3.googleusercontent.com/a-photo=w64-h64-l90-rj?ref=yt3.googleusercontent.com".toList

def cx7UrlP : List Char :=
  "https://lh3.googleusercontent.com/a-photo=w64-h64-p-l90-rj".toList

def cx7UrlS : List Char := "https://yt3.googleusercontent.com/banner=s88-no".toList

/-- The thumbnail URL of the C5 counterexample item. -/
def demoThumbUrl : List Char := "https://lh3.googleusercontent.com/pic=w64-h64-p-l90-rj".toList

/-- The C5 counterexample item: one thumbnail plus a videoId. -/
def demoItem : JVal :=
  .vobj [(vidKey, .vstr wVid),
         (thumbKey, .varr [.vobj [(urlKey, .vstr demoThumbUrl), (widthKey, .vnum 120)]])]

/-- The same object after `processResults` has run: the callback assigned
`item.thumbnails` in place, so this is the post-call state of `demoItem`. -/
def demoItemAfter : JVal :=
  .vobj [(vidKey, .vstr wVid),
         (thumbKey, .varr [.vobj
            [(urlKey, .vstr (wBase ++ proxyPre ++ encodeURIComponent (upscaleStr demoThumbUrl))),
             (widthKey, .vnum 120)]])]

/-- The URL of the first thumbnail of an item ([] when absent): distinguishes
the pre- and post-call states of a mutated item. -/
def firstThumbUrl (v : JVal) : List Char :=
  match v with
  | .vobj fs =>
      match jsGetField fs thumbKey with
      | .varr (t :: _) =>
          match t with
          | .vobj tfs =>
              match jsGetField tfs urlKey with
              | .vstr s => s
              | _ => []
          | _ => []
      | _ => []
  | _ => []

/-- The rewritten URL every string thumbnail URL is mapped to. -/
def proxiedUrlStr (base s : List Char) : List Char :=
  base ++ proxyPre ++ encodeURIComponent (upscaleStr s)

/-- The profile-photo size token `=w<d1>-h<d2>(-p)?-l<d3>-rj` as a string. -/
def whTokStr (d1 d2 : List Char) (p : Bool) (d3 : List Char) : List Char :=
  '=' :: 'w' :: d1 ++ '-' :: 'h' :: d2 ++ (if p then strDashP else []) ++
    '-' :: 'l' :: d3 ++ '-' :: 'r' :: 'j' :: []

/-- Its replacement `=w500-h500$1-l90-rj`. -/
def whNewStr (p : Bool) : List Char :=
  strW500 ++ (if p then strDashP else []) ++ strL90RJ

/-- The channel-art size token `=s<ds>`. -/
def sTokStr (ds : List Char) : List Char := '=' :: 's' :: ds

def allDigits (ds : List Char) : Bool := ds.all isDigitCh

def exOk : Except JsError JVal → Bool
  | .ok _ => true
  | .error _ => false

/-- The attempt made against the Piped instance consumed at step `j` of a
call entered with the round-robin cursor at `p`. -/
def tryPipedAt (f : Nat → PipedResp) (vid : List Char) (p j : Nat) : Option StreamData :=
  tryPiped (f ((p + j) % pipedCount)) (pipedInstanceUrl ((p + j) % pipedCount)) vid

/-- The attempt made against the Invidious instance consumed at step `j`. -/
def tryInvAt (g : Nat → InvResp) (i j : Nat) : Option StreamData :=
  tryInv (g ((i + j) % invCount)) (invInstanceUrl ((i + j) % invCount))

/-- The first `r` instance indices consumed from a round-robin cursor at `p`
over the Piped list. -/
def pipedOrder (p r : Nat) : List Nat := (List.range r).map (fun j => (p + j) % pipedCount)

def invOrder (i r : Nat) : List Nat := (List.range r).map (fun j => (i + j) % invCount)

/-- The token stream `encodeURIComponent` produces for one character. -/
def charToks (c : Char) : List UriTok :=
  if isUriUnreserved c then [UriTok.raw c] else (utf8Bytes c.toNat).map UriTok.byte

/-- The token stream `encodeURIComponent` produces for a string. -/
def encToks : List Char → List UriTok
  | [] => []
  | c :: cs => charToks c ++ encToks cs

/-- The per-entry effect of `processThumbnails` on a well-formed descriptor
(an object whose `url` is a nonempty string): the `url` own property is
replaced by the proxied URL, everything else is kept. -/
def thumbEntrySpec (base : List Char) : JVal → JVal
  | .vobj fs =>
      match fieldLookup fs urlKey with
      | some (.vstr s) => .vobj (setField fs urlKey (.vstr (proxiedUrlStr base s)))
      | _ => .vobj fs
  | t => t

/-- A concrete thumbnail descriptor used by witnesses. -/
def wThumbEntry : JVal := .vobj [(urlKey, .vstr demoThumbUrl), (widthKey, .vnum 120)]

/-- The size token inside the C7 counterexample URL. -/
def cx7Tok : List Char := "=w64-h64-l90-rj".toList

/-- Decomposition pieces of concrete URLs used by the C7 witness. -/
def wA : List Char := "https://lh3.googleusercontent.com/a-photo".toList
def wd64 : List Char := ['6', '4']
def wd90 : List Char := ['9', '0']
def wA2 : List Char := "https://yt3.googleusercontent.com/banner".toList
def wd88 : List Char := ['8', '8']
def wB2 : List Char := "-no".toList
def wPlainUrl : List Char := "https://example.com/cover.png".toList

/-! # Theorems -/

/-! ## Retrying resolver: general run lemmas -/

theorem gytGo_ok_step (f : Nat → Except JsError YtInfo) (n r i cursor : Nat)
    (last : Option JsError) (info : YtInfo) (hfi : f i = .ok info) :
    gytGo f n (r + 1) i cursor last =
      ⟨.ok (info, clientAt cursor), [], [clientAt cursor], cursor + 1⟩ := by
  rw [gytGo, hfi]

theorem gytGo_err_step (f : Nat → Except JsError YtInfo) (n r i cursor : Nat)
    (last : Option JsError) (e : JsError) (hfi : f i = .error e) :
    gytGo f n (r + 1) i cursor last =
      ⟨(gytGo f n r (i + 1) (cursor + 1) (some e)).result,
       (if e.statusCode = some 429 then [2 ^ i * 2000]
        else if e.statusCode = some 403 && i + 1 < n then [2 ^ i * 1000]
        else if i + 1 < n then [2 ^ i * 1000] else []) ++
         (gytGo f n r (i + 1) (cursor + 1) (some e)).waits,
       clientAt cursor :: (gytGo f n r (i + 1) (cursor + 1) (some e)).clients,
       (gytGo f n r (i + 1) (cursor + 1) (some e)).cursor⟩ := by
  rw [gytGo, hfi]

theorem gytGo_waits (f : Nat → Except JsError YtInfo) (n : Nat) :
    ∀ (r i cursor : Nat) (last : Option JsError),
    (gytGo f n r i cursor last).waits =
      ((List.range' i r).takeWhile (fun j => exFailed (f j))).filterMap (backoffRule f n) := by
  intro r
  induction r with
  | zero => intro i cursor last; simp [gytGo, List.range']
  | succ r ih =>
      intro i cursor last
      rw [List.range'_succ]
      cases hf : f i with
      | ok info =>
          rw [gytGo_ok_step f n r i cursor last info hf]
          simp [List.takeWhile_cons, exFailed, hf]
      | error e =>
          rw [gytGo_err_step f n r i cursor last e hf]
          have hfe : exFailed (f i) = true := by simp [exFailed, hf]
          simp only [List.takeWhile_cons, hfe, eq_self_iff_true, if_true, List.filterMap_cons,
            ih (i + 1) (cursor + 1) (some e)]
          by_cases h429 : e.statusCode = some 429
          · have hB : backoffRule f n i = some (2 ^ i * 2000) := by
              simp [backoffRule, hf, h429]
            rw [hB]
            simp [h429]
          · by_cases hlt : i + 1 < n
            · have hB : backoffRule f n i = some (2 ^ i * 1000) := by
                simp [backoffRule, hf, h429, hlt]
              rw [hB]
              by_cases h403 : e.statusCode = some 403 <;> simp [h429, hlt, h403]
            · have hB : backoffRule f n i = none := by
                simp [backoffRule, hf, h429, hlt]
              rw [hB]
              simp [h429, hlt]

theorem gytGo_allfail (f : Nat → Except JsError YtInfo) (n : Nat) (e : Nat → JsError) :
    ∀ (r i cursor : Nat) (last : Option JsError),
    (∀ j, j < r → f (i + j) = .error (e (i + j))) → 0 < r →
    (gytGo f n r i cursor last).result = .error (e (i + r - 1)) ∧
    (gytGo f n r i cursor last).clients = (List.range' cursor r).map clientAt ∧
    (gytGo f n r i cursor last).cursor = cursor + r := by
  intro r
  induction r with
  | zero => intro i cursor last _ h0; omega
  | succ r ih =>
      intro i cursor last hall _
      have hfi : f i = .error (e i) := by
        have := hall 0 (by omega)
        simpa using this
      rw [gytGo_err_step f n r i cursor last (e i) hfi]
      cases r with
      | zero =>
          refine ⟨?_, ?_, ?_⟩ <;> simp [gytGo, thrownOf, List.range'_succ, List.range']
      | succ r' =>
          have hall' : ∀ j, j < r' + 1 → f (i + 1 + j) = .error (e (i + 1 + j)) := by
            intro j hj
            have := hall (j + 1) (by omega)
            have harith : i + (j + 1) = i + 1 + j := by omega
            rwa [harith] at this
          obtain ⟨hres, hcl, hcur⟩ := ih (i + 1) (cursor + 1) (some (e i)) hall' (by omega)
          refine ⟨?_, ?_, ?_⟩
          · rw [hres]
            congr 2
            omega
          · simp only [hcl, List.range'_succ, List.map_cons]
          · rw [hcur]
            omega

/-! ## Claims C1, C2, C3, C10 -/

/-- C1: for every content id, if the retrying resolver `getYouTubeInfo`
fails and the mirror fallback `getStreamFromInvidious` returns null, then the
`GET /api/stream/:id` handler answers with the 500 error body whose `message`
is the retrying resolver's original error message — not a mirror-specific
error. -/
theorem c1_orchestrator_surfaces_primary_error
    (base vid : List Char) (f : Nat → Except JsError YtInfo) (c : Nat)
    (pO : Nat → PipedResp) (iO : Nat → InvResp) (p i : Nat) (e : JsError)
    (hyt : (getYouTubeInfo f 5 c).result = .error e)
    (hmir : (getStreamFromInvidious pO iO vid p i).result = none) :
    streamHandler base vid (getYouTubeInfo f 5 c).result
        (getStreamFromInvidious pO iO vid p i).result =
      .err 500 strStreamFail e.message := by
  rw [hyt, hmir]
  rfl

/-- Witness for C1 at a concrete always-failing upstream and all-down
mirrors: the surfaced message is the message of the 5th (final) YouTube
attempt's error. -/
theorem c1_orchestrator_surfaces_primary_error_witness :
    streamHandler wBase wVid (getYouTubeInfo wFailF 5 0).result
        (getStreamFromInvidious wPipedFail wInvFail wVid 0 0).result =
      .err 500 strStreamFail (wErrAt 4).message :=
  c1_orchestrator_surfaces_primary_error wBase wVid wFailF 0 wPipedFail wInvFail 0 0
    (wErrAt 4) rfl rfl

/-- C2 (amended): in `getYouTubeInfo` the backoff after a failure at
zero-based attempt index `i` is 2000·2^i ms for a statusCode-429 failure and
1000·2^i ms for any other failure; for non-429 failures the pause happens
only when a further attempt follows, but a 429 failure pauses even after the
final attempt (the 429 branch carries no `i < retryCount - 1` guard), so the
final attempt's failure is *not* always returned immediately.  The recorded
pauses are exactly `backoffRule` applied over the failing prefix of the
attempts. -/
theorem c2_backoff_schedule (f : Nat → Except JsError YtInfo) (n cursor : Nat) :
    (getYouTubeInfo f n cursor).waits =
      ((List.range n).takeWhile (fun j => exFailed (f j))).filterMap (backoffRule f n) := by
  rw [getYouTubeInfo, gytGo_waits, List.range_eq_range']

/-- Counterexample for C2 as stated: with every attempt failing with
statusCode 429, `getYouTubeInfo(id, 5)` records five pauses — 2000, 4000,
8000, 16000 and 32000 ms — one per attempt including the final one, so the
final attempt's failure is returned only after a trailing 32000 ms wait
(the claim predicts four pauses). -/
theorem c2_trailing_wait_counterexample :
    (getYouTubeInfo w429F 5 0).waits = [2000, 4000, 8000, 16000, 32000] ∧
    (getYouTubeInfo w429F 5 0).clients.length = 5 ∧
    ¬((getYouTubeInfo w429F 5 0).waits.length ≤ 5 - 1) := by
  refine ⟨rfl, rfl, by decide⟩

/-- C3: if every upstream attempt fails, `getYouTubeInfo(id, 5)` makes
exactly 5 attempts — consuming exactly the next five identities from the
client rotation selector, advancing its cursor by 5 — and throws the error
observed on the 5th (final) attempt. -/
theorem c3_exhaustion_last_error
    (f : Nat → Except JsError YtInfo) (e : Nat → JsError) (c : Nat)
    (hf : ∀ i, i < 5 → f i = .error (e i)) :
    (getYouTubeInfo f 5 c).result = .error (e 4) ∧
    (getYouTubeInfo f 5 c).clients =
      [clientAt c, clientAt (c + 1), clientAt (c + 2), clientAt (c + 3), clientAt (c + 4)] ∧
    (getYouTubeInfo f 5 c).clients.length = 5 ∧
    (getYouTubeInfo f 5 c).cursor = c + 5 := by
  have hf' : ∀ j, j < 5 → f (0 + j) = .error (e (0 + j)) := by
    intro j hj
    simpa using hf j hj
  obtain ⟨hres, hcl, hcur⟩ := gytGo_allfail f 5 e 5 0 c none hf' (by omega)
  refine ⟨?_, ?_, ?_, ?_⟩
  · rw [getYouTubeInfo, hres]
  · rw [getYouTubeInfo, hcl]
    simp [List.range' ]
  · rw [getYouTubeInfo, hcl]
    simp
  · rw [getYouTubeInfo, hcur]

/-- Witness for C3 with a concrete upstream failing with a distinct error on
every attempt. -/
theorem c3_exhaustion_last_error_witness :
    (getYouTubeInfo wFailF 5 0).result = .error (wErrAt 4) ∧
    (getYouTubeInfo wFailF 5 0).clients =
      [clientAt 0, clientAt 1, clientAt 2, clientAt 3, clientAt 4] ∧
    (getYouTubeInfo wFailF 5 0).clients.length = 5 ∧
    (getYouTubeInfo wFailF 5 0).cursor = 0 + 5 := by
  have := c3_exhaustion_last_error wFailF wErrAt 0 (fun i _ => rfl)
  simpa using this

/-- C10: whenever `GET /api/stream/:id` succeeds via the mirror fallback
path, the `quality` field of the response is the constant string `128kbps`,
whatever bitrate the mirror resolver selected; the selection influences only
the returned URL (and provenance/title). -/
theorem c10_mirror_quality_constant
    (base vid vid2 : List Char) (pO : Nat → PipedResp) (iO : Nat → InvResp)
    (p i : Nat) (e : JsError) (sd : StreamData)
    (hS : (getStreamFromInvidious pO iO vid p i).result = some sd) :
    streamHandler base vid2 (.error e) ((getStreamFromInvidious pO iO vid p i).result) =
      .ok sd.url str128kbps (strInvSrcL ++ sd.instanceUrl ++ strInvSrcR) sd.title := by
  rw [hS]
  rfl

/-- Witness for C10: the mirror picks the 320000-bit/s stream (320 kbps),
yet the response's quality label is still `128kbps`; only the URL reflects
the selected stream. -/
theorem c10_mirror_quality_constant_witness :
    streamHandler wBase wVid (.error (wErrAt 4))
        ((getStreamFromInvidious wPipedOk wInvFail wVid 0 0).result) =
      .ok wAudioHi.url str128kbps
        (strInvSrcL ++ pipedInstanceUrl 1 ++ strInvSrcR) (some wTitle) := by
  have := c10_mirror_quality_constant wBase wVid wVid wPipedOk wInvFail 0 0 (wErrAt 4)
    ⟨true, wAudioHi.url, strPiped, pipedInstanceUrl 1, some wTitle⟩ rfl
  simpa using this

/-! ## Mirror fallback: sort and loop lemmas -/

theorem jsSortDesc_cons_head (key : α → Int) :
    ∀ (l : List α) (a : α), (jsSortDesc key (a :: l)).head? = some (firstMaxBy key a l) := by
  intro l
  induction l with
  | nil => intro a; rfl
  | cons b bs ih =>
      intro a
      have hbs := ih b
      rcases hs : jsSortDesc key (b :: bs) with _ | ⟨m, t⟩
      · rw [hs] at hbs
        simp at hbs
      · rw [hs] at hbs
        simp only [List.head?_cons, Option.some.injEq] at hbs
        show (sortInsDesc key a (jsSortDesc key (b :: bs))).head? = _
        rw [hs]
        show (if key m ≤ key a then a :: m :: t else m :: sortInsDesc key a t).head? = _
        rw [show firstMaxBy key a (b :: bs) =
              (if key a < key (firstMaxBy key b bs) then firstMaxBy key b bs else a) from rfl,
            ← hbs]
        by_cases hle : key m ≤ key a
        · rw [if_pos hle, if_neg (by omega)]
          rfl
        · rw [if_neg hle, if_pos (by omega)]
          rfl

theorem pipedLoop_all_none (f : Nat → PipedResp) (vid : List Char) (p : Nat) :
    ∀ (r k : Nat), (∀ m, m < r → tryPipedAt f vid p (k + m) = none) →
    pipedLoop f vid p r k =
      (none, (List.range' k r).map (fun j => (p + j) % pipedCount)) := by
  intro r
  induction r with
  | zero => intro k _; simp [pipedLoop, List.range']
  | succ r ih =>
      intro k hall
      have h0 : tryPipedAt f vid p k = none := by simpa using hall 0 (by omega)
      have hrec := ih (k + 1) (fun m hm => by
        have := hall (m + 1) (by omega)
        rwa [show k + (m + 1) = k + 1 + m by omega] at this)
      show (match tryPipedAt f vid p k with
        | some sd => (some sd, [(p + k) % pipedCount])
        | none =>
            let rest := pipedLoop f vid p r (k + 1)
            (rest.1, (p + k) % pipedCount :: rest.2)) = _
      rw [h0, hrec, List.range'_succ]
      simp

theorem pipedLoop_first_some (f : Nat → PipedResp) (vid : List Char) (p : Nat) :
    ∀ (r k j : Nat) (sd : StreamData), j < r →
    (∀ m, m < j → tryPipedAt f vid p (k + m) = none) →
    tryPipedAt f vid p (k + j) = some sd →
    pipedLoop f vid p r k =
      (some sd, (List.range' k (j + 1)).map (fun x => (p + x) % pipedCount)) := by
  intro r
  induction r with
  | zero => intro k j sd hj _ _; omega
  | succ r ih =>
      intro k j sd hj hnone hsome
      cases j with
      | zero =>
          have h0 : tryPipedAt f vid p k = some sd := by simpa using hsome
          show (match tryPipedAt f vid p k with
            | some sd => (some sd, [(p + k) % pipedCount])
            | none =>
                let rest := pipedLoop f vid p r (k + 1)
                (rest.1, (p + k) % pipedCount :: rest.2)) = _
          rw [h0]
          simp [List.range']
      | succ j' =>
          have h0 : tryPipedAt f vid p k = none := by simpa using hnone 0 (by omega)
          have hrec := ih (k + 1) j' sd (by omega)
            (fun m hm => by
              have := hnone (m + 1) (by omega)
              rwa [show k + (m + 1) = k + 1 + m by omega] at this)
            (by rwa [show k + (j' + 1) = k + 1 + j' by omega] at hsome)
          show (match tryPipedAt f vid p k with
            | some sd => (some sd, [(p + k) % pipedCount])
            | none =>
                let rest := pipedLoop f vid p r (k + 1)
                (rest.1, (p + k) % pipedCount :: rest.2)) = _
          rw [h0, hrec]
          simp [List.range'_succ]

theorem invLoop_all_none (g : Nat → InvResp) (i : Nat) :
    ∀ (r k : Nat), (∀ m, m < r → tryInvAt g i (k + m) = none) →
    invLoop g i r k =
      (none, (List.range' k r).map (fun j => (i + j) % invCount)) := by
  intro r
  induction r with
  | zero => intro k _; simp [invLoop, List.range']
  | succ r ih =>
      intro k hall
      have h0 : tryInvAt g i k = none := by simpa using hall 0 (by omega)
      have hrec := ih (k + 1) (fun m hm => by
        have := hall (m + 1) (by omega)
        rwa [show k + (m + 1) = k + 1 + m by omega] at this)
      show (match tryInvAt g i k with
        | some sd => (some sd, [(i + k) % invCount])
        | none =>
            let rest := invLoop g i r (k + 1)
            (rest.1, (i + k) % invCount :: rest.2)) = _
      rw [h0, hrec, List.range'_succ]
      simp

theorem invLoop_first_some (g : Nat → InvResp) (i : Nat) :
    ∀ (r k j : Nat) (sd : StreamData), j < r →
    (∀ m, m < j → tryInvAt g i (k + m) = none) →
    tryInvAt g i (k + j) = some sd →
    invLoop g i r k =
      (some sd, (List.range' k (j + 1)).map (fun x => (i + x) % invCount)) := by
  intro r
  induction r with
  | zero => intro k j sd hj _ _; omega
  | succ r ih =>
      intro k j sd hj hnone hsome
      cases j with
      | zero =>
          have h0 : tryInvAt g i k = some sd := by simpa using hsome
          show (match tryInvAt g i k with
            | some sd => (some sd, [(i + k) % invCount])
            | none =>
                let rest := invLoop g i r (k + 1)
                (rest.1, (i + k) % invCount :: rest.2)) = _
          rw [h0]
          simp [List.range']
      | succ j' =>
          have h0 : tryInvAt g i k = none := by simpa using hnone 0 (by omega)
          have hrec := ih (k + 1) j' sd (by omega)
            (fun m hm => by
              have := hnone (m + 1) (by omega)
              rwa [show k + (m + 1) = k + 1 + m by omega] at this)
            (by rwa [show k + (j' + 1) = k + 1 + j' by omega] at hsome)
          show (match tryInvAt g i k with
            | some sd => (some sd, [(i + k) % invCount])
            | none =>
                let rest := invLoop g i r (k + 1)
                (rest.1, (i + k) % invCount :: rest.2)) = _
          rw [h0, hrec]
          simp [List.range'_succ]

theorem tryPiped_resp (a : PipedAudio) (l : List PipedAudio) (ttl : Option (List Char))
    (inst vid : List Char) :
    tryPiped (.resp (some ⟨some (a :: l), ttl⟩)) inst vid =
      some ⟨true, (firstMaxBy pipedKey a l).url, strPiped, inst, some (jsOrElse ttl vid)⟩ := by
  have hh := jsSortDesc_cons_head pipedKey l a
  rcases hs : jsSortDesc pipedKey (a :: l) with _ | ⟨best, t⟩
  · rw [hs] at hh
    simp at hh
  · rw [hs] at hh
    simp only [List.head?_cons, Option.some.injEq] at hh
    subst hh
    simp [tryPiped, hs]

theorem tryInv_resp (fs : List InvFormat) (a : InvFormat) (l : List InvFormat)
    (ttl : Option (List Char)) (inst : List Char)
    (hfilter : fs.filter isAudioFmt = a :: l) :
    tryInv (.resp (some ⟨some fs, ttl⟩)) inst =
      some ⟨true, (firstMaxBy invKey a l).url, strInvidious, inst, ttl⟩ := by
  have hh := jsSortDesc_cons_head invKey l a
  rcases hs : jsSortDesc invKey (a :: l) with _ | ⟨best, t⟩
  · rw [hs] at hh
    simp at hh
  · rw [hs] at hh
    simp only [List.head?_cons, Option.some.injEq] at hh
    subst hh
    simp [tryInv, hfilter, hs]

/-- C4: `getStreamFromInvidious` queries the Piped instances one round-robin
pass each at most once, then — only if no usable result was found — the
Invidious instances likewise; the first response with at least one audio
stream descriptor yields the maximum-bitrate entry (ties: first occurrence,
via the stable sort), tagged with the ecosystem's method name and the
instance URL; a per-instance failure just advances to the next instance; and
when both ecosystems are exhausted the call returns `none` (null) rather than
throwing.  Conjunct 1: success on the Piped pass at step `j` (every earlier
instance failed or was unusable).  Conjunct 2: the whole Piped pass is
unusable and the Invidious pass succeeds at step `j`.  Conjunct 3: both
passes exhausted; each instance was queried exactly once (the query lists are
duplicate-free and complete). -/
theorem c4_mirror_fallback_resolution :
    (∀ (f : Nat → PipedResp) (g : Nat → InvResp) (vid : List Char) (p i j : Nat)
       (a : PipedAudio) (l : List PipedAudio) (ttl : Option (List Char)),
       j < pipedCount →
       (∀ m, m < j → tryPipedAt f vid p m = none) →
       f ((p + j) % pipedCount) = .resp (some ⟨some (a :: l), ttl⟩) →
       getStreamFromInvidious f g vid p i =
         ⟨some ⟨true, (firstMaxBy pipedKey a l).url, strPiped,
            pipedInstanceUrl ((p + j) % pipedCount), some (jsOrElse ttl vid)⟩,
          pipedOrder p (j + 1), []⟩) ∧
    (∀ (f : Nat → PipedResp) (g : Nat → InvResp) (vid : List Char) (p i j : Nat)
       (fs : List InvFormat) (a : InvFormat) (l : List InvFormat) (ttl : Option (List Char)),
       (∀ m, m < pipedCount → tryPipedAt f vid p m = none) →
       j < invCount →
       (∀ m, m < j → tryInvAt g i m = none) →
       g ((i + j) % invCount) = .resp (some ⟨some fs, ttl⟩) →
       fs.filter isAudioFmt = a :: l →
       getStreamFromInvidious f g vid p i =
         ⟨some ⟨true, (firstMaxBy invKey a l).url, strInvidious,
            invInstanceUrl ((i + j) % invCount), ttl⟩,
          pipedOrder p pipedCount, invOrder i (j + 1)⟩) ∧
    (∀ (f : Nat → PipedResp) (g : Nat → InvResp) (vid : List Char) (p i : Nat),
       (∀ m, m < pipedCount → tryPipedAt f vid p m = none) →
       (∀ m, m < invCount → tryInvAt g i m = none) →
       getStreamFromInvidious f g vid p i =
         ⟨none, pipedOrder p pipedCount, invOrder i invCount⟩ ∧
       (pipedOrder p pipedCount).Nodup ∧ (invOrder i invCount).Nodup) := by
  refine ⟨?_, ?_, ?_⟩
  · intro f g vid p i j a l ttl hj hnone hdata
    have hsome : tryPipedAt f vid p (0 + j) = some
        ⟨true, (firstMaxBy pipedKey a l).url, strPiped,
         pipedInstanceUrl ((p + j) % pipedCount), some (jsOrElse ttl vid)⟩ := by
      rw [show (0 + j) = j by omega, tryPipedAt, hdata, tryPiped_resp]
    have hloop := pipedLoop_first_some f vid p pipedCount 0 j _ hj
      (fun m hm => by simpa using hnone m hm) hsome
    rw [getStreamFromInvidious, hloop]
    rw [show (List.range' 0 (j + 1)) = List.range (j + 1) from (List.range_eq_range' _).symm]
    rfl
  · intro f g vid p i j fs a l ttl hpnone hj hnone hdata hfilter
    have hploop := pipedLoop_all_none f vid p pipedCount 0
      (fun m hm => by simpa using hpnone m hm)
    have hsome : tryInvAt g i (0 + j) = some
        ⟨true, (firstMaxBy invKey a l).url, strInvidious,
         invInstanceUrl ((i + j) % invCount), ttl⟩ := by
      rw [show (0 + j) = j by omega, tryInvAt, hdata, tryInv_resp fs a l ttl _ hfilter]
    have hiloop := invLoop_first_some g i invCount 0 j _ hj
      (fun m hm => by simpa using hnone m hm) hsome
    rw [getStreamFromInvidious, hploop, hiloop]
    rw [show (List.range' 0 (j + 1)) = List.range (j + 1) from (List.range_eq_range' _).symm,
        show (List.range' 0 pipedCount) = List.range pipedCount from (List.range_eq_range' _).symm]
    rfl
  · intro f g vid p i hpnone hinone
    have hploop := pipedLoop_all_none f vid p pipedCount 0
      (fun m hm => by simpa using hpnone m hm)
    have hiloop := invLoop_all_none g i invCount 0
      (fun m hm => by simpa using hinone m hm)
    refine ⟨?_, ?_, ?_⟩
    · rw [getStreamFromInvidious, hploop, hiloop]
      rw [show (List.range' 0 pipedCount) = List.range pipedCount from (List.range_eq_range' _).symm,
          show (List.range' 0 invCount) = List.range invCount from (List.range_eq_range' _).symm]
      rfl
    · refine List.Nodup.map_on ?_ (List.nodup_range _)
      intro x hx y hy hxy
      rw [List.mem_range] at hx hy
      have hpc : pipedCount = 5 := rfl
      rw [hpc] at hx hy hxy
      omega
    · refine List.Nodup.map_on ?_ (List.nodup_range _)
      intro x hx y hy hxy
      rw [List.mem_range] at hx hy
      have hic : invCount = 7 := rfl
      rw [hic] at hx hy hxy
      omega

/-- Witness for C4: (i) with instance 0 down and instance 1 answering two
audio streams, the resolver returns the higher-bitrate stream's URL tagged
`piped` with instance 1's URL, having queried exactly instances 0 and 1;
(ii) with everything down, it returns `none` after querying each Piped and
each Invidious instance exactly once in round-robin order from the cursors. -/
theorem c4_mirror_fallback_resolution_witness :
    (getStreamFromInvidious wPipedOk wInvFail wVid 0 0 =
      ⟨some ⟨true, wAudioHi.url, strPiped, pipedInstanceUrl 1, some wTitle⟩,
       pipedOrder 0 2, []⟩) ∧
    (getStreamFromInvidious wPipedFail wInvFail wVid 3 5 =
      ⟨none, pipedOrder 3 pipedCount, invOrder 5 invCount⟩ ∧
     (pipedOrder 3 pipedCount).Nodup ∧ (invOrder 5 invCount).Nodup) := by
  constructor
  · have h := c4_mirror_fallback_resolution.1 wPipedOk wInvFail wVid 0 0 1 wAudioLo
      [wAudioHi] (some wTitle) (by decide)
      (fun m hm => by
        have hm0 : m = 0 := by omega
        subst hm0
        rfl) rfl
    exact h
  · exact c4_mirror_fallback_resolution.2.2 wPipedFail wInvFail wVid 3 5
      (fun m _ => rfl) (fun m _ => rfl)

/-! ## encodeURIComponent / decodeURIComponent round trip -/

theorem charOfNat_eq (m : Nat) (c : Char) (h : m = c.toNat) : Char.ofNat m = c := by
  rw [h, Char.ofNat_toNat]

theorem char_valid_range (c : Char) :
    c.toNat < 0xD800 ∨ (0xDFFF < c.toNat ∧ c.toNat < 0x110000) := c.valid

theorem hexVal_hexDigitChar : ∀ d, d < 16 → hexVal (hexDigitChar d) = some d := by decide

theorem unreserved_ne_percent (c : Char) (h : isUriUnreserved c = true) : ¬(c = percentChar) := by
  intro hc
  have h37 : c.toNat = 37 := by rw [hc]; rfl
  rw [isUriUnreserved, isUnreservedCode, h37] at h
  simp at h

theorem pctDecode_raw (c : Char) (hc : ¬(c = percentChar)) (rest : List Char)
    (ts : List UriTok) (h : pctDecode rest = some ts) :
    pctDecode (c :: rest) = some (UriTok.raw c :: ts) := by
  match rest with
  | [] =>
      simp [pctDecode, hc] at h ⊢
      simp [h]
  | [a] =>
      simp [pctDecode, hc] at h ⊢
      exact h
  | a :: b :: rest2 =>
      simp only [pctDecode, if_neg hc, h]
      rfl

theorem pctDecode_pctByte (b : Nat) (hb : b < 256) (rest : List Char)
    (ts : List UriTok) (h : pctDecode rest = some ts) :
    pctDecode (pctByte b ++ rest) = some (UriTok.byte b :: ts) := by
  show pctDecode (percentChar :: hexDigitChar (b / 16) :: hexDigitChar (b % 16) :: rest) = _
  simp only [pctDecode, if_pos rfl]
  rw [hexVal_hexDigitChar (b / 16) (by omega), hexVal_hexDigitChar (b % 16) (by omega), h]
  have hb16 : 16 * (b / 16) + b % 16 = b := by omega
  show some (UriTok.byte (16 * (b / 16) + b % 16) :: ts) = _
  rw [hb16]

theorem utf8Bytes_lt (c : Char) : ∀ b ∈ utf8Bytes c.toNat, b < 256 := by
  intro b hb
  have hv := char_valid_range c
  rw [utf8Bytes] at hb
  by_cases h1 : c.toNat < 0x80
  · rw [if_pos h1] at hb
    simp only [List.mem_singleton] at hb
    omega
  · rw [if_neg h1] at hb
    by_cases h2 : c.toNat < 0x800
    · rw [if_pos h2] at hb
      simp only [List.mem_cons, List.mem_singleton, List.not_mem_nil, or_false] at hb
      rcases hb with h | h <;> omega
    · rw [if_neg h2] at hb
      by_cases h3 : c.toNat < 0x10000
      · rw [if_pos h3] at hb
        simp only [List.mem_cons, List.mem_singleton, List.not_mem_nil, or_false] at hb
        rcases hb with h | h | h <;> omega
      · rw [if_neg h3] at hb
        simp only [List.mem_cons, List.mem_singleton, List.not_mem_nil, or_false] at hb
        rcases hb with h | h | h | h <;> omega

theorem pctDecode_byteList (bs : List Nat) (hbs : ∀ b ∈ bs, b < 256) :
    ∀ (rest : List Char) (ts : List UriTok), pctDecode rest = some ts →
    pctDecode ((bs.map pctByte).flatten ++ rest) = some (bs.map UriTok.byte ++ ts) := by
  induction bs with
  | nil => intro rest ts h; simpa using h
  | cons b bs ih =>
      intro rest ts h
      have hrec := ih (fun x hx => hbs x (by simp [hx])) rest ts h
      have hstep := pctDecode_pctByte b (hbs b (by simp)) ((bs.map pctByte).flatten ++ rest)
        (bs.map UriTok.byte ++ ts) hrec
      simpa using hstep

theorem pctDecode_encode : ∀ s : List Char, pctDecode (encodeURIComponent s) = some (encToks s) := by
  intro s
  induction s with
  | nil => rfl
  | cons c cs ih =>
      show pctDecode ((if isUriUnreserved c then [c]
          else ((utf8Bytes c.toNat).map pctByte).flatten) ++ encodeURIComponent cs) = _
      by_cases hu : isUriUnreserved c
      · rw [if_pos hu]
        have := pctDecode_raw c (unreserved_ne_percent c hu) (encodeURIComponent cs) _ ih
        rw [List.singleton_append, this]
        rw [encToks, charToks, if_pos hu]
        rfl
      · rw [if_neg hu]
        have := pctDecode_byteList (utf8Bytes c.toNat) (utf8Bytes_lt c)
          (encodeURIComponent cs) _ ih
        rw [this]
        rw [encToks, charToks, if_neg hu]

theorem decodeToks_charToks (c : Char) (ts : List UriTok) (s : List Char)
    (h : decodeToks ts = some s) :
    decodeToks (charToks c ++ ts) = some (c :: s) := by
  have hv := char_valid_range c
  by_cases hu : isUriUnreserved c
  · rw [charToks, if_pos hu, List.singleton_append]
    rw [decodeToks, h]
    rfl
  · rw [charToks, if_neg hu]
    by_cases h1 : c.toNat < 0x80
    · have hbytes : utf8Bytes c.toNat = [c.toNat] := by
        rw [utf8Bytes, if_pos h1]
      rw [hbytes, List.map_cons, List.map_nil, List.singleton_append]
      rw [decodeToks, if_pos h1, h]
      rw [Option.map_some', Char.ofNat_toNat]
    · by_cases h2 : c.toNat < 0x800
      · have hbytes : utf8Bytes c.toNat = [0xC0 + c.toNat / 64, 0x80 + c.toNat % 64] := by
          rw [utf8Bytes, if_neg h1, if_pos h2]
        rw [hbytes, List.map_cons, List.map_cons, List.map_nil]
        rw [List.cons_append, List.cons_append, List.nil_append]
        rw [decodeToks, if_neg (by omega),
          if_pos (by simp only [Bool.and_eq_true, decide_eq_true_eq]; omega)]
        rw [decTail2, if_pos (by simp only [Bool.and_eq_true, decide_eq_true_eq]; omega)]
        rw [h, Option.map_some']
        rw [charOfNat_eq _ c (by omega)]
      · by_cases h3 : c.toNat < 0x10000
        · have hbytes : utf8Bytes c.toNat =
              [0xE0 + c.toNat / 4096, 0x80 + c.toNat / 64 % 64, 0x80 + c.toNat % 64] := by
            rw [utf8Bytes, if_neg h1, if_neg h2, if_pos h3]
          rw [hbytes, List.map_cons, List.map_cons, List.map_cons, List.map_nil]
          rw [List.cons_append, List.cons_append, List.cons_append, List.nil_append]
          rw [decodeToks, if_neg (by omega),
            if_neg (by simp only [Bool.and_eq_true, decide_eq_true_eq]; omega),
            if_pos (by simp only [Bool.and_eq_true, decide_eq_true_eq]; omega)]
          rw [decTail3,
            if_pos (by simp only [Bool.and_eq_true, decide_eq_true_eq]; omega)]
          simp only
          rw [if_pos (by
            simp only [Bool.and_eq_true, Bool.or_eq_true, decide_eq_true_eq]
            omega)]
          rw [h, Option.map_some']
          rw [charOfNat_eq _ c (by omega)]
        · have h4 : c.toNat < 0x110000 := by omega
          have hbytes : utf8Bytes c.toNat =
              [0xF0 + c.toNat / 262144, 0x80 + c.toNat / 4096 % 64,
               0x80 + c.toNat / 64 % 64, 0x80 + c.toNat % 64] := by
            rw [utf8Bytes, if_neg h1, if_neg h2, if_neg h3]
          rw [hbytes, List.map_cons, List.map_cons, List.map_cons, List.map_cons, List.map_nil]
          rw [List.cons_append, List.cons_append, List.cons_append, List.cons_append,
            List.nil_append]
          rw [decodeToks, if_neg (by omega),
            if_neg (by simp only [Bool.and_eq_true, decide_eq_true_eq]; omega),
            if_neg (by simp only [Bool.and_eq_true, decide_eq_true_eq]; omega),
            if_pos (by simp only [Bool.and_eq_true, decide_eq_true_eq]; omega)]
          rw [decTail4,
            if_pos (by simp only [Bool.and_eq_true, decide_eq_true_eq]; omega)]
          simp only
          rw [if_pos (by simp only [Bool.and_eq_true, decide_eq_true_eq]; omega)]
          rw [h, Option.map_some']
          rw [charOfNat_eq _ c (by omega)]

theorem decodeToks_encToks : ∀ s : List Char, decodeToks (encToks s) = some s := by
  intro s
  induction s with
  | nil => rfl
  | cons c cs ih =>
      rw [encToks]
      exact decodeToks_charToks c (encToks cs) cs ih

/-- `decodeURIComponent` recovers exactly the string `encodeURIComponent`
encoded (ECMA-262 round trip). -/
theorem decode_encode_roundtrip (s : List Char) :
    decodeURIComponent (encodeURIComponent s) = some s := by
  rw [decodeURIComponent, pctDecode_encode, Option.some_bind]
  exact decodeToks_encToks s

/-! ## Thumbnail rewriting: per-entry and per-list lemmas -/

theorem jsFalsy_vstr_false (s : List Char) (hs : s ≠ []) :
    jsFalsy (.vstr s) = false := by
  simp [jsFalsy, hs]

theorem proxyThumbnailUrl_str (base s : List Char) (hs : s ≠ []) :
    proxyThumbnailUrl base (.vstr s) = .ok (.vstr (proxiedUrlStr base s)) := by
  rw [proxyThumbnailUrl, if_neg (by rw [jsFalsy_vstr_false s hs]; simp)]
  rfl

theorem procThumbEntry_str (base : List Char) (fs : List (List Char × JVal)) (s : List Char)
    (hurl : fieldLookup fs urlKey = some (.vstr s)) (hs : s ≠ []) :
    procThumbEntry base (.vobj fs) =
      .ok (.vobj (setField fs urlKey (.vstr (proxiedUrlStr base s)))) := by
  have hget : jsGetProp (.vobj fs) urlKey = .vstr s := by
    show jsGetField fs urlKey = .vstr s
    rw [jsGetField, hurl]
    rfl
  show (proxyThumbnailUrl base (jsGetProp (.vobj fs) urlKey)).map
      (fun u => JVal.vobj (setField (jsSpread (.vobj fs)) urlKey u)) = _
  rw [hget, proxyThumbnailUrl_str base s hs]
  rfl

theorem procThumbList_spec (base : List Char) :
    ∀ ts : List JVal,
    (∀ t ∈ ts, ∃ fs s, t = .vobj fs ∧ fieldLookup fs urlKey = some (.vstr s) ∧ s ≠ []) →
    procThumbList base ts = .ok (ts.map (thumbEntrySpec base)) := by
  intro ts
  induction ts with
  | nil => intro _; rfl
  | cons t ts ih =>
      intro hwf
      obtain ⟨fs, s, hfs, hurl, hs⟩ := hwf t (by simp)
      subst hfs
      have hrec := ih (fun x hx => hwf x (by simp [hx]))
      rw [List.map_cons]
      show (procThumbEntry base (.vobj fs)).bind
        (fun t' => (procThumbList base ts).bind (fun ts' => Except.ok (t' :: ts'))) = _
      rw [procThumbEntry_str base fs s hurl hs, hrec]
      show Except.ok (JVal.vobj (setField fs urlKey (.vstr (proxiedUrlStr base s)))
        :: ts.map (thumbEntrySpec base)) = _
      rw [show thumbEntrySpec base (.vobj fs) =
        .vobj (setField fs urlKey (.vstr (proxiedUrlStr base s))) from by
          rw [thumbEntrySpec, hurl]]

/-- C6 (amended): for every nonempty thumbnail list whose descriptors carry
nonempty string URLs, `processThumbnails` returns exactly as many
descriptors, each with its `url` replaced by the configured base followed by
`/api/proxy/image?url=` and a percent-encoding that decodes back to the
upscaled source URL (round trip).  A descriptor whose `url` is the empty
string is the one exception: the empty string is falsy, so it passes through
unproxied (see the counterexample). -/
theorem c6_rewrite_count_and_roundtrip (base : List Char) (ts : List JVal) (hne : ts ≠ [])
    (hwf : ∀ t ∈ ts, ∃ fs s, t = .vobj fs ∧ fieldLookup fs urlKey = some (.vstr s) ∧ s ≠ []) :
    ∃ ts', processThumbnails base (.varr ts) = .ok (.varr ts') ∧
      ts'.length = ts.length ∧
      ∀ (k : Nat) (fs : List (List Char × JVal)) (s : List Char),
        ts[k]? = some (JVal.vobj fs) → fieldLookup fs urlKey = some (.vstr s) →
        ts'[k]? = some (JVal.vobj (setField fs urlKey
          (.vstr (base ++ proxyPre ++ encodeURIComponent (upscaleStr s))))) ∧
        decodeURIComponent (encodeURIComponent (upscaleStr s)) = some (upscaleStr s) := by
  refine ⟨ts.map (thumbEntrySpec base), ?_, by simp, ?_⟩
  · have hlist := procThumbList_spec base ts hwf
    rw [processThumbnails, if_neg (by
      rcases ts with _ | ⟨t, ts⟩
      · exact absurd rfl hne
      · simp [thumbsEmptyish, jsFalsy, jsLengthIsZero])]
    rw [hlist]
    rfl
  · intro k fs s hk hurl
    refine ⟨?_, decode_encode_roundtrip (upscaleStr s)⟩
    rw [List.getElem?_map, hk, Option.map_some']
    rw [show thumbEntrySpec base (.vobj fs) =
      .vobj (setField fs urlKey (.vstr (proxiedUrlStr base s))) from by
        rw [thumbEntrySpec, hurl]]
    rfl

/-- Witness for C6 at a concrete one-descriptor list whose URL is a
profile-photo CDN URL (which is also upscaled before encoding). -/
theorem c6_rewrite_count_and_roundtrip_witness :
    ∃ ts', processThumbnails wBase (.varr [wThumbEntry]) = .ok (.varr ts') ∧
      ts'.length = ([wThumbEntry] : List JVal).length ∧
      ∀ (k : Nat) (fs : List (List Char × JVal)) (s : List Char),
        ([wThumbEntry] : List JVal)[k]? = some (JVal.vobj fs) →
        fieldLookup fs urlKey = some (.vstr s) →
        ts'[k]? = some (JVal.vobj (setField fs urlKey
          (.vstr (wBase ++ proxyPre ++ encodeURIComponent (upscaleStr s))))) ∧
        decodeURIComponent (encodeURIComponent (upscaleStr s)) = some (upscaleStr s) :=
  c6_rewrite_count_and_roundtrip wBase [wThumbEntry] (by simp)
    (fun t ht => by
      simp only [List.mem_singleton] at ht
      exact ⟨[(urlKey, .vstr demoThumbUrl), (widthKey, .vnum 120)], demoThumbUrl,
        by rw [ht]; rfl, rfl, by decide⟩)

/-- Counterexample for C6 as stated: a descriptor whose `url` is the empty
string (a falsy value) is returned unchanged — its URL is not prefixed by the
proxy base, contradicting "each returned URL is the configured base URL
followed by /api/proxy/image?url=...". -/
theorem c6_empty_url_counterexample :
    processThumbnails wBase (.varr [.vobj [(urlKey, .vstr [])]]) =
      .ok (.varr [.vobj [(urlKey, .vstr [])]]) ∧
    ([] : List Char) ≠ wBase ++ proxyPre ++ encodeURIComponent (upscaleStr []) :=
  ⟨rfl, by decide⟩

/-! ## The upscale regexes: decomposition lemmas -/

theorem splitDigits_append (d : List Char) (hd : allDigits d = true) (c0 : Char)
    (hc0 : isDigitCh c0 = false) (r : List Char) :
    splitDigits (d ++ c0 :: r) = (d, c0 :: r) := by
  induction d with
  | nil => simp [splitDigits, hc0]
  | cons c cs ih =>
      rw [allDigits, List.all_cons, Bool.and_eq_true] at hd
      have := ih (by rw [allDigits]; exact hd.2)
      rw [List.cons_append, splitDigits, if_pos hd.1, this]

theorem matchLRJ_tok (d3 : List Char) (h3 : d3 ≠ []) (hd3 : allDigits d3 = true)
    (b : List Char) :
    matchLRJ ('-' :: 'l' :: (d3 ++ '-' :: 'r' :: 'j' :: b)) = some b := by
  rcases d3 with _ | ⟨c, cs⟩
  · exact absurd rfl h3
  · rw [matchLRJ]
    rw [splitDigits_append (c :: cs) hd3 '-' (by decide) ('r' :: 'j' :: b)]
    rfl

theorem matchWHTok_tok (d1 d2 d3 : List Char) (p : Bool) (b : List Char)
    (h1 : d1 ≠ []) (hd1 : allDigits d1 = true)
    (h2 : d2 ≠ []) (hd2 : allDigits d2 = true)
    (h3 : d3 ≠ []) (hd3 : allDigits d3 = true) :
    matchWHTok (whTokStr d1 d2 p d3 ++ b) = some (p, b) := by
  have hLRJ := matchLRJ_tok d3 h3 hd3 b
  rcases d1 with _ | ⟨c1, cs1⟩
  · exact absurd rfl h1
  rcases d2 with _ | ⟨c2, cs2⟩
  · exact absurd rfl h2
  cases p with
  | true =>
      have hassoc : whTokStr (c1 :: cs1) (c2 :: cs2) true d3 ++ b =
          '=' :: 'w' :: ((c1 :: cs1) ++ '-' :: 'h' :: ((c2 :: cs2) ++
            '-' :: 'p' :: '-' :: 'l' :: (d3 ++ '-' :: 'r' :: 'j' :: b))) := by
        rw [whTokStr]
        simp [List.append_assoc, strDashP]
      rw [hassoc, matchWHTok]
      simp only [splitDigits_append (c1 :: cs1) hd1 '-' (by decide),
        splitDigits_append (c2 :: cs2) hd2 '-' (by decide), hLRJ]
  | false =>
      have hassoc : whTokStr (c1 :: cs1) (c2 :: cs2) false d3 ++ b =
          '=' :: 'w' :: ((c1 :: cs1) ++ '-' :: 'h' :: ((c2 :: cs2) ++
            '-' :: 'l' :: (d3 ++ '-' :: 'r' :: 'j' :: b))) := by
        rw [whTokStr]
        simp [List.append_assoc]
      rw [hassoc, matchWHTok]
      simp only [splitDigits_append (c1 :: cs1) hd1 '-' (by decide),
        splitDigits_append (c2 :: cs2) hd2 '-' (by decide), hLRJ]
      rfl

theorem splitDigits_all (d : List Char) (hd : allDigits d = true) :
    splitDigits d = (d, []) := by
  induction d with
  | nil => rfl
  | cons c cs ih =>
      rw [allDigits, List.all_cons, Bool.and_eq_true] at hd
      rw [splitDigits, if_pos hd.1, ih (by rw [allDigits]; exact hd.2)]

theorem splitDigits_append_head (d : List Char) (hd : allDigits d = true) (r : List Char)
    (hr : ∀ c, r.head? = some c → isDigitCh c = false) :
    splitDigits (d ++ r) = (d, r) := by
  rcases r with _ | ⟨c0, r'⟩
  · rw [List.append_nil, splitDigits_all d hd]
  · exact splitDigits_append d hd c0 (hr c0 rfl) r'

theorem replaceWH_decomp (d1 d2 d3 : List Char) (p : Bool) (b : List Char)
    (h1 : d1 ≠ []) (hd1 : allDigits d1 = true)
    (h2 : d2 ≠ []) (hd2 : allDigits d2 = true)
    (h3 : d3 ≠ []) (hd3 : allDigits d3 = true) :
    ∀ a : List Char,
    (∀ k, k < a.length → matchWHTok (List.drop k (a ++ whTokStr d1 d2 p d3 ++ b)) = none) →
    replaceWH (a ++ whTokStr d1 d2 p d3 ++ b) = a ++ whNewStr p ++ b := by
  intro a
  induction a with
  | nil =>
      intro _
      simp only [List.nil_append]
      rcases htok : whTokStr d1 d2 p d3 ++ b with _ | ⟨c, cs⟩
      · rcases d1 with _ | ⟨x, xs⟩
        · exact absurd rfl h1
        · simp [whTokStr] at htok
      · rw [replaceWH, ← htok, matchWHTok_tok d1 d2 d3 p b h1 hd1 h2 hd2 h3 hd3]
        simp [whNewStr, List.append_assoc]
  | cons c a' ih =>
      intro hnone
      have h0 : matchWHTok (c :: (a' ++ whTokStr d1 d2 p d3 ++ b)) = none := by
        have := hnone 0 (by simp)
        simpa using this
      have hrec := ih (fun k hk => by
        have := hnone (k + 1) (by simp; omega)
        simpa [List.drop_succ_cons] using this)
      rw [List.cons_append, List.cons_append]
      simp only [replaceWH]
      rw [h0]
      show c :: replaceWH (a' ++ whTokStr d1 d2 p d3 ++ b) = _
      rw [hrec]
      simp [List.append_assoc]

theorem matchSTok_tok (ds : List Char) (hne : ds ≠ []) (hd : allDigits ds = true)
    (b : List Char) (hb : ∀ c, b.head? = some c → isDigitCh c = false) :
    matchSTok (sTokStr ds ++ b) = some b := by
  rcases ds with _ | ⟨c, cs⟩
  · exact absurd rfl hne
  · show matchSTok ('=' :: 's' :: ((c :: cs) ++ b)) = some b
    rw [matchSTok, splitDigits_append_head (c :: cs) hd b hb]

theorem replaceS_decomp (ds : List Char) (hne : ds ≠ []) (hd : allDigits ds = true)
    (b : List Char) (hb : ∀ c, b.head? = some c → isDigitCh c = false) :
    ∀ a : List Char,
    (∀ k, k < a.length → matchSTok (List.drop k (a ++ sTokStr ds ++ b)) = none) →
    replaceS (a ++ sTokStr ds ++ b) = a ++ strS500 ++ b := by
  intro a
  induction a with
  | nil =>
      intro _
      simp only [List.nil_append]
      rcases htok : sTokStr ds ++ b with _ | ⟨c, cs⟩
      · simp [sTokStr] at htok
      · rw [replaceS, ← htok, matchSTok_tok ds hne hd b hb]
  | cons c a' ih =>
      intro hnone
      have h0 : matchSTok (c :: (a' ++ sTokStr ds ++ b)) = none := by
        have := hnone 0 (by simp)
        simpa using this
      have hrec := ih (fun k hk => by
        have := hnone (k + 1) (by simp; omega)
        simpa [List.drop_succ_cons] using this)
      rw [List.cons_append, List.cons_append]
      simp only [replaceS]
      rw [h0]
      show c :: replaceS (a' ++ sTokStr ds ++ b) = _
      rw [hrec]
      simp [List.append_assoc]

/-- C7 (amended): in `proxyThumbnailUrl`, (1) a URL containing the
profile-photo CDN string but not the channel-art CDN string has the leftmost
`=w<d>-h<d>(-p)?-l<d>-rj` token rewritten to `=w500-h500(-p)-l90-rj` (the
500x500 form) before proxying; (2) a URL containing the channel-art CDN
string has its leftmost `=s<d>` token rewritten to `=s500` before proxying —
and this branch recomputes from the *original* URL, so it takes precedence
even when the profile-photo CDN string is also present (no lh3 hypothesis is
needed); (3) a nonempty URL containing neither CDN string passes through to
the proxy wrapper unmodified. -/
theorem c7_upscale_rules :
    (∀ (base a b d1 d2 d3 : List Char) (p : Bool),
       d1 ≠ [] → allDigits d1 = true → d2 ≠ [] → allDigits d2 = true →
       d3 ≠ [] → allDigits d3 = true →
       jsIncludes lh3CDN (a ++ whTokStr d1 d2 p d3 ++ b) = true →
       jsIncludes yt3CDN (a ++ whTokStr d1 d2 p d3 ++ b) = false →
       (∀ k, k < a.length → matchWHTok (List.drop k (a ++ whTokStr d1 d2 p d3 ++ b)) = none) →
       proxyThumbnailUrl base (.vstr (a ++ whTokStr d1 d2 p d3 ++ b)) =
         .ok (.vstr (base ++ proxyPre ++ encodeURIComponent (a ++ whNewStr p ++ b)))) ∧
    (∀ (base a b ds : List Char), ds ≠ [] → allDigits ds = true →
       (∀ c, b.head? = some c → isDigitCh c = false) →
       jsIncludes yt3CDN (a ++ sTokStr ds ++ b) = true →
       (∀ k, k < a.length → matchSTok (List.drop k (a ++ sTokStr ds ++ b)) = none) →
       proxyThumbnailUrl base (.vstr (a ++ sTokStr ds ++ b)) =
         .ok (.vstr (base ++ proxyPre ++ encodeURIComponent (a ++ strS500 ++ b)))) ∧
    (∀ (base s : List Char), s ≠ [] →
       jsIncludes lh3CDN s = false → jsIncludes yt3CDN s = false →
       proxyThumbnailUrl base (.vstr s) =
         .ok (.vstr (base ++ proxyPre ++ encodeURIComponent s))) := by
  refine ⟨?_, ?_, ?_⟩
  · intro base a b d1 d2 d3 p h1 hd1 h2 hd2 h3 hd3 hlh3 hyt3 hnoE
    have hs : a ++ whTokStr d1 d2 p d3 ++ b ≠ [] := by
      rcases d1 with _ | ⟨x, xs⟩
      · exact absurd rfl h1
      · simp [whTokStr]
    rw [proxyThumbnailUrl_str base _ hs, proxiedUrlStr]
    have hwh := replaceWH_decomp d1 d2 d3 p b h1 hd1 h2 hd2 h3 hd3 a hnoE
    have hup : upscaleStr (a ++ whTokStr d1 d2 p d3 ++ b) = a ++ whNewStr p ++ b := by
      simp only [upscaleStr, hlh3, hyt3, hwh]
      simp
    rw [hup]
  · intro base a b ds hne hd hbh hyt3 hnoE
    have hs : a ++ sTokStr ds ++ b ≠ [] := by
      simp [sTokStr]
    rw [proxyThumbnailUrl_str base _ hs, proxiedUrlStr]
    have hrepl := replaceS_decomp ds hne hd b hbh a hnoE
    have hup : upscaleStr (a ++ sTokStr ds ++ b) = a ++ strS500 ++ b := by
      simp only [upscaleStr, hyt3, hrepl]
      simp
    rw [hup]
  · intro base s hne hlh3 hyt3
    rw [proxyThumbnailUrl_str base s hne, proxiedUrlStr]
    have hup : upscaleStr s = s := by
      simp only [upscaleStr, hlh3, hyt3]
      simp
    rw [hup]

/-- Witness for C7: the three amended rules at concrete URLs — a
profile-photo URL with a `-p` token upscales to 500x500, a channel-art URL
with `=s88` upscales to `=s500`, and a plain URL passes through unchanged. -/
theorem c7_upscale_rules_witness :
    (proxyThumbnailUrl wBase (.vstr (wA ++ whTokStr wd64 wd64 true wd90 ++ [])) =
      .ok (.vstr (wBase ++ proxyPre ++ encodeURIComponent (wA ++ whNewStr true ++ [])))) ∧
    (proxyThumbnailUrl wBase (.vstr (wA2 ++ sTokStr wd88 ++ wB2)) =
      .ok (.vstr (wBase ++ proxyPre ++ encodeURIComponent (wA2 ++ strS500 ++ wB2)))) ∧
    (proxyThumbnailUrl wBase (.vstr wPlainUrl) =
      .ok (.vstr (wBase ++ proxyPre ++ encodeURIComponent wPlainUrl))) := by
  refine ⟨?_, ?_, ?_⟩
  · exact c7_upscale_rules.1 wBase wA [] wd64 wd64 wd90 true (by decide) (by decide)
      (by decide) (by decide) (by decide) (by decide) (by decide) (by decide)
      (fun k hk => by revert hk; revert k; decide)
  · exact c7_upscale_rules.2.1 wBase wA2 wB2 wd88 (by decide) (by decide)
      (fun c hc => by revert hc; revert c; decide) (by decide)
      (fun k hk => by revert hk; revert k; decide)
  · exact c7_upscale_rules.2.2 wBase wPlainUrl (by decide) (by decide) (by decide)

/-- Counterexample for C7 as stated: `cx7Url` has host
`lh3.googleusercontent.com` and carries the size token `=w64-h64-l90-rj`, but
because its query string also contains the substring
`yt3.googleusercontent.com`, the second `if` recomputes the upscaled URL from
the original (which has no `=s` token), discarding the 500x500 rewrite: the
URL reaches the proxy wrapper unmodified, with no `=w500-h500` in it. -/
theorem c7_lh3_masked_counterexample :
    jsIncludes lh3CDN cx7Url = true ∧
    jsIncludes cx7Tok cx7Url = true ∧
    jsIncludes yt3CDN cx7Url = true ∧
    upscaleStr cx7Url = cx7Url ∧
    proxyThumbnailUrl wBase (.vstr cx7Url) =
      .ok (.vstr (wBase ++ proxyPre ++ encodeURIComponent cx7Url)) ∧
    jsIncludes strW500 cx7Url = false := by
  refine ⟨by decide, by decide, by decide, by decide, ?_, by decide⟩
  rw [proxyThumbnailUrl_str wBase cx7Url (by decide), proxiedUrlStr,
    show upscaleStr cx7Url = cx7Url by decide]

/-! ## processResults: synthesized thumbnails (C8) -/

theorem fieldLookup_setField_self (key : List Char) (v : JVal) :
    ∀ fs : List (List Char × JVal), fieldLookup (setField fs key v) key = some v := by
  intro fs
  induction fs with
  | nil => simp [setField, fieldLookup]
  | cons kv fs ih =>
      obtain ⟨k, w⟩ := kv
      by_cases hk : k = key
      · rw [setField, if_pos hk, fieldLookup, if_pos rfl]
      · rw [setField, if_neg hk, fieldLookup, if_neg hk, ih]

theorem setField_setField (key : List Char) (v w : JVal) :
    ∀ fs : List (List Char × JVal),
    setField (setField fs key v) key w = setField fs key w := by
  intro fs
  induction fs with
  | nil => simp [setField]
  | cons kv fs ih =>
      obtain ⟨k, x⟩ := kv
      by_cases hk : k = key
      · rw [setField, if_pos hk, setField, if_pos rfl, setField, if_pos hk]
      · rw [setField, if_neg hk, setField, if_neg hk, setField, if_neg hk, ih]

/-- C8: in the per-item body of `processResults`, an item with zero
thumbnails (property absent, null, undefined, or an empty list) that carries
a (nonempty string) `videoId` gains exactly two synthesized descriptors —
320x180 `mqdefault.jpg` and 480x360 `hqdefault.jpg` under
`https://i.ytimg.com/vi/<videoId>/` — which are then proxied (conjunct 1,
whose right-hand side is `processThumbnails` applied to exactly
`[mqThumb v, hqThumb v]`, made explicit by conjunct 2); an item that already
has a nonempty thumbnail list gains no synthetic descriptors: its list is
rewritten entrywise, preserving its length (conjunct 3); and `processResults`
is the per-item body mapped over the array (conjunct 4). -/
theorem c8_synthesized_default_art :
    (∀ (base v : List Char) (fs : List (List Char × JVal)),
       (fieldLookup fs thumbKey = none ∨ fieldLookup fs thumbKey = some .vnull ∨
        fieldLookup fs thumbKey = some .vundef ∨ fieldLookup fs thumbKey = some (.varr [])) →
       fieldLookup fs vidKey = some (.vstr v) → v ≠ [] →
       procResultsItem base (.vobj fs) =
         .ok (.vobj (setField fs thumbKey (.varr
           [.vobj [(urlKey, .vstr (proxiedUrlStr base (mqUrlPre ++ v ++ mqUrlSuf))),
                   (widthKey, .vnum 320), (heightKey, .vnum 180)],
            .vobj [(urlKey, .vstr (proxiedUrlStr base (mqUrlPre ++ v ++ hqUrlSuf))),
                   (widthKey, .vnum 480), (heightKey, .vnum 360)]])))) ∧
    (∀ (base v : List Char), v ≠ [] →
       processThumbnails base (.varr [mqThumb v, hqThumb v]) =
         .ok (.varr
           [.vobj [(urlKey, .vstr (proxiedUrlStr base (mqUrlPre ++ v ++ mqUrlSuf))),
                   (widthKey, .vnum 320), (heightKey, .vnum 180)],
            .vobj [(urlKey, .vstr (proxiedUrlStr base (mqUrlPre ++ v ++ hqUrlSuf))),
                   (widthKey, .vnum 480), (heightKey, .vnum 360)]])) ∧
    (∀ (base : List Char) (fs : List (List Char × JVal)) (t : JVal) (ts : List JVal),
       fieldLookup fs thumbKey = some (.varr (t :: ts)) →
       (∀ x ∈ t :: ts, ∃ efs s, x = .vobj efs ∧
          fieldLookup efs urlKey = some (.vstr s) ∧ s ≠ []) →
       procResultsItem base (.vobj fs) =
         .ok (.vobj (setField fs thumbKey (.varr ((t :: ts).map (thumbEntrySpec base))))) ∧
       ((t :: ts).map (thumbEntrySpec base)).length = (t :: ts).length) ∧
    (∀ (base : List Char) (it out : JVal), procResultsItem base it = .ok out →
       processResults base (.varr [it]) = .ok (.varr [out])) := by
  have hptPair : ∀ (base v : List Char), v ≠ [] →
      processThumbnails base (.varr [mqThumb v, hqThumb v]) =
        .ok (.varr
          [.vobj [(urlKey, .vstr (proxiedUrlStr base (mqUrlPre ++ v ++ mqUrlSuf))),
                  (widthKey, .vnum 320), (heightKey, .vnum 180)],
           .vobj [(urlKey, .vstr (proxiedUrlStr base (mqUrlPre ++ v ++ hqUrlSuf))),
                  (widthKey, .vnum 480), (heightKey, .vnum 360)]]) := by
    intro base v hv
    have hmq : mqUrlPre ++ v ++ mqUrlSuf ≠ [] := by simp [mqUrlPre]
    have hhq : mqUrlPre ++ v ++ hqUrlSuf ≠ [] := by simp [mqUrlPre]
    rw [processThumbnails, if_neg (by simp [thumbsEmptyish, jsFalsy, jsLengthIsZero])]
    show (procThumbList base [mqThumb v, hqThumb v]).map JVal.varr = _
    rw [show procThumbList base [mqThumb v, hqThumb v] =
        (procThumbEntry base (mqThumb v)).bind (fun t1 =>
          ((procThumbEntry base (hqThumb v)).bind (fun t2 => Except.ok [t2])).bind
            (fun r => Except.ok (t1 :: r))) from rfl]
    rw [show mqThumb v = JVal.vobj [(urlKey, .vstr (mqUrlPre ++ v ++ mqUrlSuf)),
          (widthKey, .vnum 320), (heightKey, .vnum 180)] from rfl]
    rw [procThumbEntry_str base _ (mqUrlPre ++ v ++ mqUrlSuf)
      (by rw [fieldLookup, if_pos rfl]) hmq]
    rw [show hqThumb v = JVal.vobj [(urlKey, .vstr (mqUrlPre ++ v ++ hqUrlSuf)),
          (widthKey, .vnum 480), (heightKey, .vnum 360)] from rfl]
    rw [procThumbEntry_str base _ (mqUrlPre ++ v ++ hqUrlSuf)
      (by rw [fieldLookup, if_pos rfl]) hhq]
    rfl
  refine ⟨?_, hptPair, ?_, ?_⟩
  · intro base v fs hth hvid hv
    have hth0 : thumbsEmptyish ((fieldLookup fs thumbKey).getD JVal.vundef) = true := by
      rcases hth with h | h | h | h <;> rw [h] <;> rfl
    have hvid' : jsTruthy ((fieldLookup fs vidKey).getD JVal.vundef) = true := by
      rw [hvid]
      simp [jsTruthy, jsFalsy, hv]
    have hvidstr : jsToString ((fieldLookup fs vidKey).getD JVal.vundef) = v := by
      rw [hvid, Option.getD_some, jsToString]
    simp only [procResultsItem, hth0, hvid', hvidstr, Bool.and_self, eq_self_iff_true, if_true,
      jsGetField, fieldLookup_setField_self, Option.getD_some, hptPair base v hv, Except.map,
      setField_setField]
  · intro base fs t ts hth hwf
    have hpt : processThumbnails base (.varr (t :: ts)) =
        .ok (.varr ((t :: ts).map (thumbEntrySpec base))) := by
      rw [processThumbnails, if_neg (by simp [thumbsEmptyish, jsFalsy, jsLengthIsZero]),
        procThumbList_spec base (t :: ts) hwf]
      rfl
    have hth0 : thumbsEmptyish (JVal.varr (t :: ts)) = false := rfl
    refine ⟨?_, by simp⟩
    simp only [procResultsItem, jsGetField, hth0, Bool.false_and, Bool.false_eq_true, if_false,
      hth, Option.getD_some, hpt, Except.map]
  · intro base it out h
    show (procItemList base [it]).map JVal.varr = _
    rw [show procItemList base [it] = (procResultsItem base it).bind (fun x' =>
        (Except.ok [] : Except JsError (List JVal)).bind
          (fun xs' => Except.ok (x' :: xs'))) from rfl]
    rw [h]
    rfl

/-- Witness for C8: an item carrying only a `videoId` gains exactly the two
proxied default-art descriptors, and the whole `processResults` call returns
that single mutated item. -/
theorem c8_synthesized_default_art_witness :
    procResultsItem wBase (.vobj [(vidKey, .vstr wVid)]) =
      .ok (.vobj (setField [(vidKey, .vstr wVid)] thumbKey (.varr
        [.vobj [(urlKey, .vstr (proxiedUrlStr wBase (mqUrlPre ++ wVid ++ mqUrlSuf))),
                (widthKey, .vnum 320), (heightKey, .vnum 180)],
         .vobj [(urlKey, .vstr (proxiedUrlStr wBase (mqUrlPre ++ wVid ++ hqUrlSuf))),
                (widthKey, .vnum 480), (heightKey, .vnum 360)]]))) ∧
    processResults wBase (.varr [.vobj [(vidKey, .vstr wVid)]]) =
      .ok (.varr [.vobj (setField [(vidKey, .vstr wVid)] thumbKey (.varr
        [.vobj [(urlKey, .vstr (proxiedUrlStr wBase (mqUrlPre ++ wVid ++ mqUrlSuf))),
                (widthKey, .vnum 320), (heightKey, .vnum 180)],
         .vobj [(urlKey, .vstr (proxiedUrlStr wBase (mqUrlPre ++ wVid ++ hqUrlSuf))),
                (widthKey, .vnum 480), (heightKey, .vnum 360)]]))]) := by
  have ha := c8_synthesized_default_art.1 wBase wVid [(vidKey, .vstr wVid)]
    (Or.inl rfl) rfl (by decide)
  exact ⟨ha, c8_synthesized_default_art.2.2.2 wBase _ _ ha⟩

/-! ## Degradation and failure modes of the rewriter (C9) -/

theorem exOk_map (f : JVal → JVal) (e : Except JsError JVal) :
    exOk (e.map f) = exOk e := by
  cases e <;> rfl

theorem procThumbPair_isOk (base vid : List Char) :
    exOk (processThumbnails base (.varr [mqThumb vid, hqThumb vid])) = true := by
  have hmq : mqUrlPre ++ vid ++ mqUrlSuf ≠ [] := by simp [mqUrlPre]
  have hhq : mqUrlPre ++ vid ++ hqUrlSuf ≠ [] := by simp [mqUrlPre]
  rw [processThumbnails, if_neg (by simp [thumbsEmptyish, jsFalsy, jsLengthIsZero])]
  show exOk ((procThumbList base [mqThumb vid, hqThumb vid]).map JVal.varr) = true
  rw [show procThumbList base [mqThumb vid, hqThumb vid] =
      (procThumbEntry base (mqThumb vid)).bind (fun t1 =>
        ((procThumbEntry base (hqThumb vid)).bind (fun t2 => Except.ok [t2])).bind
          (fun r => Except.ok (t1 :: r))) from rfl]
  rw [show mqThumb vid = JVal.vobj [(urlKey, .vstr (mqUrlPre ++ vid ++ mqUrlSuf)),
        (widthKey, .vnum 320), (heightKey, .vnum 180)] from rfl]
  rw [procThumbEntry_str base _ (mqUrlPre ++ vid ++ mqUrlSuf)
    (by rw [fieldLookup, if_pos rfl]) hmq]
  rw [show hqThumb vid = JVal.vobj [(urlKey, .vstr (mqUrlPre ++ vid ++ hqUrlSuf)),
        (widthKey, .vnum 480), (heightKey, .vnum 360)] from rfl]
  rw [procThumbEntry_str base _ (mqUrlPre ++ vid ++ hqUrlSuf)
    (by rw [fieldLookup, if_pos rfl]) hhq]
  rfl

theorem processThumbnails_noop (base : List Char) (th : JVal)
    (h : thumbsEmptyish th = true) : processThumbnails base th = .ok th := by
  cases th <;> simp_all [processThumbnails]

/-- C9 (amended): absent or empty thumbnail data degrades to a no-op —
`processThumbnails` returns `null`/`undefined`/`[]` inputs untouched, and
`proxyThumbnailUrl` accepts every string URL (the empty string passes through
unproxied, everything else is proxied); and the `processResults` item body
succeeds on any object whose thumbnails are absent/falsy/empty, whatever its
`videoId`.  But the rewriter is *not* failure-free: malformed thumbnail data
(a null entry, a truthy non-string URL, a truthy non-array thumbnails value)
raises a TypeError — see the counterexample. -/
theorem c9_degradation_amended :
    (∀ base : List Char, processThumbnails base .vnull = .ok .vnull ∧
       processThumbnails base .vundef = .ok .vundef ∧
       processThumbnails base (.varr []) = .ok (.varr [])) ∧
    (∀ base s : List Char, proxyThumbnailUrl base (.vstr s) =
       .ok (.vstr (if s = [] then s else proxiedUrlStr base s))) ∧
    (∀ (base : List Char) (fs : List (List Char × JVal)),
       thumbsEmptyish ((fieldLookup fs thumbKey).getD JVal.vundef) = true →
       exOk (procResultsItem base (.vobj fs)) = true) := by
  refine ⟨fun base => ⟨rfl, rfl, rfl⟩, ?_, ?_⟩
  · intro base s
    by_cases hs : s = []
    · subst hs
      rfl
    · rw [if_neg hs]
      exact proxyThumbnailUrl_str base s hs
  · intro base fs hempty
    by_cases hc : jsTruthy ((fieldLookup fs vidKey).getD JVal.vundef) = true
    · have hcond : (thumbsEmptyish ((fieldLookup fs thumbKey).getD JVal.vundef) &&
          jsTruthy ((fieldLookup fs vidKey).getD JVal.vundef)) = true := by
        rw [hempty, hc]
        rfl
      simp only [procResultsItem, jsGetField, hcond, eq_self_iff_true, if_true,
        fieldLookup_setField_self, Option.getD_some, exOk_map]
      exact procThumbPair_isOk base _
    · have hc' : jsTruthy ((fieldLookup fs vidKey).getD JVal.vundef) = false := by
        revert hc
        cases jsTruthy ((fieldLookup fs vidKey).getD JVal.vundef) <;> simp
      have hcond : (thumbsEmptyish ((fieldLookup fs thumbKey).getD JVal.vundef) &&
          jsTruthy ((fieldLookup fs vidKey).getD JVal.vundef)) = false := by
        rw [hc', Bool.and_false]
      simp only [procResultsItem, jsGetField, hcond, Bool.false_eq_true, if_false, exOk_map]
      rw [processThumbnails_noop base _ hempty]
      rfl

/-- Witness for C9: an object with no properties at all (thumbnails absent)
is processed without an error being raised. -/
theorem c9_degradation_amended_witness :
    exOk (procResultsItem wBase (.vobj [])) = true :=
  c9_degradation_amended.2.2 wBase [] rfl

/-- Counterexample for C9 as stated: malformed thumbnail data raises — a
`null` entry in the thumbnails list (reading `t.url` of null), a truthy
non-string `url` (no `.includes` method), a truthy non-array `thumbnails`
value with nonzero length (no `.map` method), and a whole `processResults`
call on an item with a boolean `url` all yield TypeErrors instead of
degrading to a no-op. -/
theorem c9_malformed_throws_counterexample :
    processThumbnails wBase (.varr [.vnull]) = .error errNullEntry ∧
    proxyThumbnailUrl wBase (.vnum 5) = .error errNoIncludes ∧
    processThumbnails wBase (.vnum 7) = .error errNoMap ∧
    processResults wBase (.varr [.vobj [(thumbKey, .varr [.vobj [(urlKey, .vbool true)]])]]) =
      .error errNoIncludes :=
  ⟨rfl, rfl, rfl, rfl⟩

/-! ## Copy-on-write structure preservation (C5) -/

theorem removeField_setField (key : List Char) (v : JVal) :
    ∀ fs : List (List Char × JVal),
    removeField (setField fs key v) key = removeField fs key := by
  intro fs
  induction fs with
  | nil => simp [setField, removeField]
  | cons kv fs ih =>
      obtain ⟨k, w⟩ := kv
      by_cases hk : k = key
      · rw [setField, if_pos hk, removeField, if_pos rfl, removeField, if_pos hk]
      · rw [setField, if_neg hk, removeField, if_neg hk, removeField, if_neg hk, ih]

theorem proxyThumbnailUrl_strAny (base s : List Char) :
    proxyThumbnailUrl base (.vstr s) =
      .ok (.vstr (if s = [] then s else proxiedUrlStr base s)) := by
  by_cases hs : s = []
  · subst hs
    rfl
  · rw [if_neg hs]
    exact proxyThumbnailUrl_str base s hs

theorem procThumbEntry_wf (base : List Char) (t : JVal) (h : wfEntry t = true) :
    ∃ t', procThumbEntry base t = .ok t' ∧ eraseEntry t' = eraseEntry t := by
  cases t with
  | vobj efs =>
      have mk : ∀ X : JVal,
          proxyThumbnailUrl base ((fieldLookup efs urlKey).getD .vundef) = .ok X →
          ∃ t', procThumbEntry base (.vobj efs) = .ok t' ∧
            eraseEntry t' = eraseEntry (.vobj efs) := by
        intro X hX
        refine ⟨.vobj (setField efs urlKey X), ?_, ?_⟩
        · show (proxyThumbnailUrl base (jsGetProp (.vobj efs) urlKey)).map
            (fun u => JVal.vobj (setField (jsSpread (.vobj efs)) urlKey u)) = _
          rw [show jsGetProp (.vobj efs) urlKey = (fieldLookup efs urlKey).getD .vundef from rfl,
            hX]
          rfl
        · show JVal.vobj (removeField (setField efs urlKey X) urlKey) =
            JVal.vobj (removeField efs urlKey)
          rw [removeField_setField]
      rcases hurl : fieldLookup efs urlKey with _ | u
      · exact mk .vundef (by rw [hurl]; rfl)
      · cases u with
        | vundef => exact mk .vundef (by rw [hurl]; rfl)
        | vnull => exact mk .vnull (by rw [hurl]; rfl)
        | vstr s =>
            exact mk _ (by rw [hurl, Option.getD_some, proxyThumbnailUrl_strAny])
        | vbool b => simp [wfEntry, hurl] at h
        | vnum n => simp [wfEntry, hurl] at h
        | varr xs => simp [wfEntry, hurl] at h
        | vobj gs => simp [wfEntry, hurl] at h
  | vnull => simp [wfEntry] at h
  | vundef => simp [wfEntry] at h
  | vbool b => simp [wfEntry] at h
  | vnum n => simp [wfEntry] at h
  | vstr s => simp [wfEntry] at h
  | varr xs => simp [wfEntry] at h

theorem procThumbList_wf (base : List Char) :
    ∀ ts : List JVal, (∀ t ∈ ts, wfEntry t = true) →
    ∃ ts', procThumbList base ts = .ok ts' ∧ ts'.map eraseEntry = ts.map eraseEntry := by
  intro ts
  induction ts with
  | nil => intro _; exact ⟨[], rfl, rfl⟩
  | cons t ts ih =>
      intro hwf
      obtain ⟨t', ht1, ht2⟩ := procThumbEntry_wf base t (hwf t (by simp))
      obtain ⟨ts', hts1, hts2⟩ := ih (fun x hx => hwf x (by simp [hx]))
      refine ⟨t' :: ts', ?_, ?_⟩
      · simp only [procThumbList, ht1, hts1]
        rfl
      · simp only [List.map_cons, ht2, hts2]

theorem processThumbnails_wfEntries (base : List Char) (v : JVal) (h : wfEntries v = true) :
    ∃ ts ts', v = .varr ts ∧ processThumbnails base v = .ok (.varr ts') ∧
      ts'.map eraseEntry = ts.map eraseEntry := by
  cases v with
  | varr ts =>
      rcases ts with _ | ⟨t, ts⟩
      · exact ⟨[], [], rfl, rfl, rfl⟩
      · have hwf : ∀ x ∈ t :: ts, wfEntry x = true := by
          rw [wfEntries, List.all_eq_true] at h
          exact h
        obtain ⟨ts', h1, h2⟩ := procThumbList_wf base (t :: ts) hwf
        refine ⟨t :: ts, ts', rfl, ?_, h2⟩
        rw [processThumbnails, if_neg (by simp [thumbsEmptyish, jsFalsy, jsLengthIsZero]), h1]
        rfl
  | vnull => simp [wfEntries] at h
  | vundef => simp [wfEntries] at h
  | vbool b => simp [wfEntries] at h
  | vnum n => simp [wfEntries] at h
  | vstr s => simp [wfEntries] at h
  | vobj fs => simp [wfEntries] at h

/-!
Structure-preservation of the copy-on-write walk (src/server.js 255-269): on a
well-formed graph `proxyAllThumbnails` succeeds, and erasing the thumbnail
`url` values from its output gives back the erasure of its input — the walk
changes nothing else.  Proved mutually over values, array elements and object
fields, mirroring the recursion of the source.
-/
mutual
theorem pat_wf (base : List Char) : (v : JVal) → wfThumbs v = true →
    ∃ v', proxyAllThumbnails base v = .ok v' ∧ eraseThumbUrls v' = eraseThumbUrls v ∧
      isArrB v' = isArrB v ∧ isObjOrArr v' = isObjOrArr v
  | .vnull, _ => ⟨.vnull, rfl, rfl, rfl, rfl⟩
  | .vundef, _ => ⟨.vundef, rfl, rfl, rfl, rfl⟩
  | .vbool b, _ => ⟨.vbool b, rfl, rfl, rfl, rfl⟩
  | .vnum n, _ => ⟨.vnum n, rfl, rfl, rfl, rfl⟩
  | .vstr s, _ => ⟨.vstr s, rfl, rfl, rfl, rfl⟩
  | .varr xs, h => by
      obtain ⟨xs', h1, h2⟩ := patArr_wf base xs (by simpa [wfThumbs] using h)
      refine ⟨.varr xs', ?_, ?_, rfl, rfl⟩
      · simp only [proxyAllThumbnails, h1]
        rfl
      · simp only [eraseThumbUrls, h2]
  | .vobj fs, h => by
      obtain ⟨fs', h1, h2⟩ := patFields_wf base fs (by simpa [wfThumbs] using h)
      refine ⟨.vobj fs', ?_, ?_, rfl, rfl⟩
      · simp only [proxyAllThumbnails, h1]
        rfl
      · simp only [eraseThumbUrls, h2]
theorem patArr_wf (base : List Char) : (xs : List JVal) → wfArr xs = true →
    ∃ xs', patArr base xs = .ok xs' ∧ eraseArr xs' = eraseArr xs
  | [], _ => ⟨[], rfl, rfl⟩
  | x :: xs, h => by
      have hx : wfThumbs x = true := by
        rw [wfArr, Bool.and_eq_true] at h
        exact h.1
      have hxs : wfArr xs = true := by
        rw [wfArr, Bool.and_eq_true] at h
        exact h.2
      obtain ⟨x', hx1, hx2, _, _⟩ := pat_wf base x hx
      obtain ⟨xs', hxs1, hxs2⟩ := patArr_wf base xs hxs
      refine ⟨x' :: xs', ?_, ?_⟩
      · simp only [patArr, hx1, hxs1]
        rfl
      · simp only [eraseArr, hx2, hxs2]
theorem patFields_wf (base : List Char) :
    (fs : List (List Char × JVal)) → wfFields fs = true →
    ∃ fs', patFields base fs = .ok fs' ∧ eraseFields fs' = eraseFields fs
  | [], _ => ⟨[], rfl, rfl⟩
  | (k, v) :: fs, h => by
      rw [wfFields, Bool.and_eq_true] at h
      obtain ⟨hv, hfs⟩ := h
      obtain ⟨fs', hfs1, hfs2⟩ := patFields_wf base fs hfs
      by_cases hA : (k = thumbKey && isArrB v) = true
      · rw [if_pos hA] at hv
        obtain ⟨ts, ts', hveq, hpt, hmap⟩ := processThumbnails_wfEntries base v hv
        subst hveq
        have hk : k = thumbKey := of_decide_eq_true ((Bool.and_eq_true _ _).mp hA).1
        subst hk
        refine ⟨(thumbKey, .varr ts') :: fs', ?_, ?_⟩
        · simp only [patFields, hpt, hfs1, isArrB, decide_True, Bool.and_self,
            eq_self_iff_true, if_true]
          rfl
        · simp only [eraseFields, isArrB, decide_True, Bool.and_self, eq_self_iff_true,
            if_true, eraseEntries, hmap, hfs2]
      · have hA' : (decide (k = thumbKey) && isArrB v) = false := by
          revert hA
          cases (decide (k = thumbKey) && isArrB v) <;> simp
        rw [if_neg hA] at hv
        by_cases hB : isObjOrArr v = true
        · rw [if_pos hB] at hv
          obtain ⟨v', hv1, hv2, hArr, hObj⟩ := pat_wf base v hv
          refine ⟨(k, v') :: fs', ?_, ?_⟩
          · simp only [patFields, hA', Bool.false_eq_true, if_false, hB, eq_self_iff_true,
              if_true, hv1, hfs1]
            rfl
          · simp only [eraseFields, hArr, hObj, hA', Bool.false_eq_true, if_false, hB,
              eq_self_iff_true, if_true, hv2, hfs2]
        · have hB' : isObjOrArr v = false := by
            revert hB
            cases isObjOrArr v <;> simp
          refine ⟨(k, v) :: fs', ?_, ?_⟩
          · simp only [patFields, hA', Bool.false_eq_true, if_false, hB', hfs1]
            rfl
          · simp only [eraseFields, hA', hB', Bool.false_eq_true, if_false, hfs2]
end

/-- C5 (amended): the recursive rewriter `proxyAllThumbnails` is copy-on-write
and structure-preserving — on any well-formed graph it succeeds and its output
agrees with its input after erasing exactly the thumbnail `url` values (the
only data it may change or add), which is the "structurally isomorphic,
differing only in thumbnail URL values" invariant (conjunct 1).
`processResults`, by contrast, is NOT input-preserving: its `map` callback
assigns `item.thumbnails` in place and returns the very same object, so every
returned item is simultaneously the post-call state of the caller's item;
conjunct 2 pins down that mutation footprint: any successful per-item run
returns exactly the input object with its `thumbnails` own property replaced
(everything else is untouched).  Conjunct 3 records that `processResults` is
this mutating body mapped over the caller's array. -/
theorem c5_rewriter_mutation_footprint :
    (∀ (base : List Char) (v : JVal), wfThumbs v = true →
       ∃ v', proxyAllThumbnails base v = .ok v' ∧
         eraseThumbUrls v' = eraseThumbUrls v) ∧
    (∀ (base : List Char) (fs : List (List Char × JVal)) (item' : JVal),
       procResultsItem base (.vobj fs) = .ok item' →
       ∃ tv, item' = .vobj (setField fs thumbKey tv)) ∧
    (∀ (base : List Char) (xs : List JVal),
       processResults base (.varr xs) = (procItemList base xs).map .varr) := by
  refine ⟨?_, ?_, fun _ _ => rfl⟩
  · intro base v h
    obtain ⟨v', h1, h2, _, _⟩ := pat_wf base v h
    exact ⟨v', h1, h2⟩
  · intro base fs item' h
    by_cases hc : (thumbsEmptyish (jsGetField fs thumbKey) &&
        jsTruthy (jsGetField fs vidKey)) = true
    · simp only [procResultsItem, hc, if_true] at h
      cases hpt : processThumbnails base
          (jsGetField (setField fs thumbKey
            (.varr [mqThumb (jsToString (jsGetField fs vidKey)),
                    hqThumb (jsToString (jsGetField fs vidKey))])) thumbKey) with
      | error e =>
          rw [hpt] at h
          simp [Except.map] at h
      | ok tv =>
          rw [hpt] at h
          simp only [Except.map, Except.ok.injEq] at h
          exact ⟨tv, by rw [← h, setField_setField]⟩
    · simp only [procResultsItem, hc, if_false, Bool.false_eq_true] at h
      cases hpt : processThumbnails base (jsGetField fs thumbKey) with
      | error e =>
          rw [hpt] at h
          simp [Except.map] at h
      | ok tv =>
          rw [hpt] at h
          simp only [Except.map, Except.ok.injEq] at h
          exact ⟨tv, h.symm⟩

/-- C5 witness: on the concrete one-thumbnail item `demoItem`, the rewriter
succeeds and the erasure invariant holds, and the per-item result
`demoItemAfter` is exactly `demoItem` with the `thumbnails` property
replaced. -/
theorem c5_rewriter_mutation_footprint_witness :
    wfThumbs demoItem = true ∧
    (∃ v', proxyAllThumbnails wBase demoItem = .ok v' ∧
       eraseThumbUrls v' = eraseThumbUrls demoItem) ∧
    (∃ tv, demoItemAfter = .vobj (setField
       [(vidKey, .vstr wVid),
        (thumbKey, .varr [.vobj [(urlKey, .vstr demoThumbUrl), (widthKey, .vnum 120)]])]
       thumbKey tv)) :=
  ⟨rfl,
   c5_rewriter_mutation_footprint.1 wBase demoItem rfl,
   c5_rewriter_mutation_footprint.2.1 wBase
     [(vidKey, .vstr wVid),
      (thumbKey, .varr [.vobj [(urlKey, .vstr demoThumbUrl), (widthKey, .vnum 120)]])]
     demoItemAfter rfl⟩

/-- C5 counterexample to "processResults never mutates the caller's input":
the `map` callback of `processResults` (src/server.js 243-252) assigns
`item.thumbnails = ...` on the caller's own item object and returns that same
object, so the returned array element IS the caller's item after the call.
Here that post-call state (`demoItemAfter`) differs from the pre-call state
(`demoItem`) in its first thumbnail URL — the caller's input object was
mutated in place. -/
theorem c5_inplace_mutation_counterexample :
    processResults wBase (.varr [demoItem]) = .ok (.varr [demoItemAfter]) ∧
    firstThumbUrl demoItemAfter ≠ firstThumbUrl demoItem :=
  ⟨rfl, by decide⟩
